import Mathlib

/-!
# Weight arena of `vowpalwabbit/array_parameters.h`

A shallow embedding of `weights_iterator_iterator`, `weights_iterator` and
`weight_parameters`.

* A `weight*` is a `Ptr`: the block it was derived from and an offset counted
  in floats.  Pointer arithmetic only moves the offset, which wraps with the
  64-bit byte address, i.e. modulo `2 ^ 64 / sizeof(float) = 2 ^ 62`; a
  dereference is checked against the heap and yields `none` outside a live
  block.
* `size_t` / `uint64_t` values are naturals reduced modulo `2 ^ 64`; a shift
  whose count reaches the operand width is undefined and yields `none`.
* `weight` is `float` in the source.  The arena only stores, copies and
  zeroes weights, so the embedding is generic in the weight type `W`.
* Loops of the form `for (it = b; it != e; ++it)` take a fuel argument;
  `none` means a faulting access or exhausted fuel.
-/

namespace VW

/-! ## Machine arithmetic -/

/-- The value of `sizeof(float)`. -/
def sizeof_float : Nat := 4

/-- The shift `x << s` on a 64-bit unsigned operand: wraps modulo `2 ^ 64`,
undefined when the count is not below the width. -/
def shl64 (x s : Nat) : Option Nat :=
  if s < 64 then some ((x * 2 ^ s) % 2 ^ 64) else none

/-- The subtraction `x - 1` on a 64-bit unsigned operand. -/
def dec64 (x : Nat) : Nat := (x + (2 ^ 64 - 1)) % 2 ^ 64

/-- The expression `1 << _stride_shift`: a shift of the `int` constant `1`,
converted to `uint32_t`; undefined when the count is not below 32. -/
def stride_of (stride_shift : Nat) : Option Nat :=
  if stride_shift < 32 then some (2 ^ stride_shift) else none

/-! ## Pointers and heap -/

/-- A `weight*`.  `base = none` is an address not derived from any block
(`nullptr` and what is computed from it). -/
structure Ptr where
  base : Option Nat
  off : Nat
deriving DecidableEq, Repr

/-- The null pointer. -/
def Ptr.nullptr : Ptr := ⟨none, 0⟩

/-- The value `MAP_FAILED` (`(void*) -1`): a non-null address at the top of the address
space, outside every block. -/
def Ptr.MAP_FAILED : Ptr := ⟨none, 2 ^ 62 - 1⟩

/-- Pointer arithmetic `p + k` on a `float*`: the byte address wraps modulo `2 ^ 64`, so
the offset in floats wraps modulo `2 ^ 62`. -/
def Ptr.add (p : Ptr) (k : Nat) : Ptr := ⟨p.base, (p.off + k) % 2 ^ 62⟩

/-- The heap: block `b` holds `some cells` while it is live and `none` once
it has been released. -/
structure Heap (W : Type) where
  blocks : List (Option (List W))
deriving DecidableEq, Repr

variable {W : Type}

/-- The cells of block `b`, when it is live. -/
def Heap.cells (h : Heap W) (b : Nat) : Option (List W) :=
  match h.blocks[b]? with
  | some (some xs) => some xs
  | _ => none

/-- Number of slots of the live block `b`. -/
def Heap.size (h : Heap W) (b : Nat) : Option Nat :=
  (h.cells b).map List.length

/-- The read `*p`. -/
def Heap.read (h : Heap W) (p : Ptr) : Option W :=
  match p.base with
  | none => none
  | some b =>
    match h.cells b with
    | none => none
    | some xs => xs[p.off]?

/-- The write `*p = v`. -/
def Heap.write (h : Heap W) (p : Ptr) (v : W) : Option (Heap W) :=
  match p.base with
  | none => none
  | some b =>
    match h.cells b with
    | none => none
    | some xs =>
      if p.off < xs.length then some ⟨h.blocks.set b (some (xs.set p.off v))⟩
      else none

/-- Modelled from the spec: `calloc_mergable_or_throw<weight>(nmemb)`, which is
declared outside `array_parameters.h`.  It allocates `nmemb` numeric slots,
"zero- or uninitialized per the allocation policy" (`fill k` is what slot `k`
holds), and an allocation that cannot be obtained is fatal (`none`): a block
whose byte size does not fit the 64-bit address space cannot be obtained. -/
def calloc_mergable_or_throw (h : Heap W) (fill : Nat → W) (nmemb : Nat) :
    Option (Ptr × Heap W) :=
  if nmemb * sizeof_float < 2 ^ 64 then
    some (⟨some h.blocks.length, 0⟩, ⟨h.blocks ++ [some ((List.range nmemb).map fill)]⟩)
  else none

/-- The call `mmap(0, bytes, PROT_READ | PROT_WRITE, MAP_SHARED | MAP_ANONYMOUS, -1, 0)`
seen as a `float*`: when the mapping is created it is a fresh zero-filled block
of `bytes / sizeof(float)` slots, otherwise the result is `MAP_FAILED`. -/
def mmap [Zero W] (h : Heap W) (bytes : Nat) (created : Bool) : Ptr × Heap W :=
  if created then
    (⟨some h.blocks.length, 0⟩, ⟨h.blocks ++ [some (List.replicate (bytes / sizeof_float) 0)]⟩)
  else (Ptr.MAP_FAILED, h)

/-- The call `memcpy(dest, src, bytes)` on `float` blocks: copies
`bytes / sizeof(float)` slots; both ranges have to lie inside live blocks. -/
def memcpy (h : Heap W) (dest src : Ptr) (bytes : Nat) : Option (Heap W) :=
  let count := bytes / sizeof_float
  if count = 0 then some h
  else
    match src.base, dest.base with
    | some s, some d =>
      match h.cells s, h.cells d with
      | some xs, some ys =>
        if src.off + count ≤ xs.length ∧ dest.off + count ≤ ys.length then
          some ⟨h.blocks.set d (some
            (ys.take dest.off ++ (xs.drop src.off).take count ++ ys.drop (dest.off + count)))⟩
        else none
      | _, _ => none
    | _, _ => none

/-- The call `free(p)`: a no-op on `nullptr`, otherwise `p` has to be the start
of a live block, which is released. -/
def free (h : Heap W) (p : Ptr) : Option (Heap W) :=
  if p = Ptr.nullptr then some h
  else
    match p.base with
    | none => none
    | some b =>
      if p.off = 0 ∧ (h.cells b).isSome then some ⟨h.blocks.set b none⟩ else none

/-! ## `weights_iterator_iterator` -/

/-- The inner cursor `weights_iterator_iterator<T>`. -/
structure weights_iterator_iterator where
  _cur : Ptr
deriving DecidableEq, Repr

namespace weights_iterator_iterator

/-- The slot `operator*` refers to. -/
def deref (it : weights_iterator_iterator) : Ptr := it._cur

/-- The increment `operator++`. -/
def incr (it : weights_iterator_iterator) : weights_iterator_iterator := ⟨it._cur.add 1⟩

/-- The sum `operator+(size_t index)`. -/
def plus (it : weights_iterator_iterator) (index : Nat) : weights_iterator_iterator :=
  ⟨it._cur.add index⟩

/-- The update `operator+=(size_t index)`. -/
def plus_assign (it : weights_iterator_iterator) (index : Nat) : weights_iterator_iterator :=
  ⟨it._cur.add index⟩

/-- The comparison `operator==`. -/
def eq (it rhs : weights_iterator_iterator) : Bool := decide (it._cur = rhs._cur)

/-- The comparison `operator!=`. -/
def ne (it rhs : weights_iterator_iterator) : Bool := decide (it._cur ≠ rhs._cur)

end weights_iterator_iterator

/-! ## `weights_iterator` -/

/-- The outer cursor `weights_iterator<T>`. -/
structure weights_iterator where
  _current : Ptr
  _stride : Nat
deriving DecidableEq, Repr

namespace weights_iterator

/-- The slot `operator*` refers to. -/
def deref (it : weights_iterator) : Ptr := it._current

/-- The increment `operator++`: `_current += _stride`. -/
def incr (it : weights_iterator) : weights_iterator :=
  ⟨it._current.add it._stride, it._stride⟩

/-- The sum `operator+(size_t index)`; `index * _stride` is a `size_t` product. -/
def plus (it : weights_iterator) (index : Nat) : weights_iterator :=
  ⟨it._current.add ((index * it._stride) % 2 ^ 64), it._stride⟩

/-- The update `operator+=(size_t index)`. -/
def plus_assign (it : weights_iterator) (index : Nat) : weights_iterator :=
  ⟨it._current.add ((index * it._stride) % 2 ^ 64), it._stride⟩

/-- The comparison `operator==`: positions only. -/
def eq (it rhs : weights_iterator) : Bool := decide (it._current = rhs._current)

/-- The comparison `operator!=`: positions only. -/
def ne (it rhs : weights_iterator) : Bool := decide (it._current ≠ rhs._current)

/-- The inner cursor `begin()` of the current bucket. -/
def begin (it : weights_iterator) : weights_iterator_iterator := ⟨it._current⟩

/-- The inner cursor `end(offset)` of the current bucket. -/
def end_ (it : weights_iterator) (offset : Nat) : weights_iterator_iterator :=
  ⟨it._current.add offset⟩

/-- The slots dereferenced by `for (it = b; it != e; ++it) visit(*it)`. -/
def visit : Nat → weights_iterator → weights_iterator → Option (List Ptr)
  | 0, _, _ => none
  | fuel + 1, it, e =>
    if it.ne e then (visit fuel it.incr e).map (fun ps => it.deref :: ps) else some []

end weights_iterator

/-! ## `weight_parameters` -/

/-- The arena handle `weight_parameters`. -/
structure weight_parameters where
  _begin : Ptr
  _weight_mask : Nat
  _stride_shift : Nat
deriving DecidableEq, Repr

namespace weight_parameters

/-- The constructor `weight_parameters(size_t length, uint32_t stride_shift)`. -/
def construct (h : Heap W) (fill : Nat → W) (length stride_shift : Nat) :
    Option (weight_parameters × Heap W) :=
  match shl64 length stride_shift with
  | none => none
  | some n =>
    match calloc_mergable_or_throw h fill n with
    | none => none
    | some (p, h1) => some (⟨p, dec64 n, stride_shift⟩, h1)

/-- The default constructor `weight_parameters()`. -/
def empty : weight_parameters := ⟨Ptr.nullptr, 0, 0⟩

/-- The test `not_null()`. -/
def not_null (a : weight_parameters) : Bool :=
  decide (a._weight_mask > 0) && decide (a._begin ≠ Ptr.nullptr)

/-- The accessor `first()`. -/
def first (a : weight_parameters) : Ptr := a._begin

/-- The flat cursor `begin()`. -/
def begin (a : weight_parameters) : weights_iterator := ⟨a._begin, 1⟩

/-- The flat cursor `end()`. -/
def end_ (a : weight_parameters) : weights_iterator :=
  ⟨(a._begin.add a._weight_mask).add 1, 1⟩

/-- The strided cursor `begin(size_t offset)`. -/
def begin_offset (a : weight_parameters) (offset : Nat) : Option weights_iterator :=
  (stride_of a._stride_shift).map (fun stride => ⟨a._begin.add offset, stride⟩)

/-- The strided cursor `end(size_t offset)`. -/
def end_offset (a : weight_parameters) (offset : Nat) : Option weights_iterator :=
  (stride_of a._stride_shift).map
    (fun stride => ⟨((a._begin.add a._weight_mask).add 1).add offset, stride⟩)

/-- The slot `operator[](size_t i)` refers to: `_begin[i & _weight_mask]`. -/
def index (a : weight_parameters) (i : Nat) : Ptr := a._begin.add (i &&& a._weight_mask)

/-- The read `arena[i]`. -/
def get (a : weight_parameters) (h : Heap W) (i : Nat) : Option W := h.read (a.index i)

/-- The write `arena[i] = v`. -/
def assign (a : weight_parameters) (h : Heap W) (i : Nat) (v : W) :
    Option (weight_parameters × Heap W) :=
  (h.write (a.index i) v).map (fun h1 => (a, h1))

/-- The member `shallow_copy(input)`. -/
def shallow_copy (_a input : weight_parameters) : weight_parameters :=
  ⟨input._begin, input._weight_mask, input._stride_shift⟩

/-- The copy constructor `weight_parameters(const weight_parameters&)`. -/
def copy (other : weight_parameters) : weight_parameters := shallow_copy empty other

/-- The loop of `set_default<void(*T)(iterator&)>`:
`for (iterator iter = begin(0); iter != end(); ++iter) T(iter)`.  A visitor acts on the
surrounding state `S` and receives the loop cursor by reference (`iterator&`): it returns
the state and the cursor as it leaves them, and `++iter` goes on from that cursor. -/
def set_default_loop1 {S : Type} (T : S → weights_iterator → S × weights_iterator) :
    Nat → weights_iterator → weights_iterator → S → Option S
  | 0, _, _, _ => none
  | fuel + 1, iter, e, st =>
    if iter.ne e then set_default_loop1 T fuel (T st iter).2.incr e (T st iter).1
    else some st

/-- The loop shared by the `set_default` overloads that pass the flat index:
`for (size_t i = 0; iter != end(); ++iter, i += stride) T(iter, i)`.  The cursor is passed
by reference (`iterator&`) and the index by value: the visitor returns the state and the
cursor as it leaves them. -/
def set_default_loop {S : Type} (T : S → weights_iterator → Nat → S × weights_iterator)
    (stride : Nat) :
    Nat → weights_iterator → weights_iterator → Nat → S → Option S
  | 0, _, _, _, _ => none
  | fuel + 1, iter, e, i, st =>
    if iter.ne e then
      set_default_loop T stride fuel (T st iter i).2.incr e ((i + stride) % 2 ^ 64)
        (T st iter i).1
    else some st

/-- The overload `set_default<void(*T)(iterator&)>()`. -/
def set_default_cursor {S : Type} (fuel : Nat) (a : weight_parameters)
    (T : S → weights_iterator → S × weights_iterator) (st : S) : Option S :=
  match a.begin_offset 0 with
  | none => none
  | some iter => set_default_loop1 T fuel iter a.end_ st

/-- The overload `set_default<void(*T)(iterator&, size_t)>()`. -/
def set_default_index {S : Type} (fuel : Nat) (a : weight_parameters)
    (T : S → weights_iterator → Nat → S × weights_iterator) (st : S) : Option S :=
  match stride_of a._stride_shift with
  | none => none
  | some stride =>
    match a.begin_offset 0 with
    | none => none
    | some iter => set_default_loop T stride fuel iter a.end_ 0 st

/-- The overload `set_default<void(*T)(iterator&, size_t, uint32_t)>()`. -/
def set_default_stride {S : Type} (fuel : Nat) (a : weight_parameters)
    (T : S → weights_iterator → Nat → Nat → S × weights_iterator) (st : S) : Option S :=
  match stride_of a._stride_shift with
  | none => none
  | some stride =>
    match a.begin_offset 0 with
    | none => none
    | some iter =>
      set_default_loop (fun s it i => T s it i stride) stride fuel iter a.end_ 0 st

/-- The overload `template <typename T> set_default(T t)`. -/
def set_default {S : Type} (fuel : Nat) (a : weight_parameters)
    (t : S → weights_iterator → Nat → S × weights_iterator) (st : S) : Option S :=
  match stride_of a._stride_shift with
  | none => none
  | some stride =>
    match a.begin_offset 0 with
    | none => none
    | some iter => set_default_loop t stride fuel iter a.end_ 0 st

/-- The loop of `set_zero`: `for (; iter != end(offset); ++iter) *iter = 0`. -/
def set_zero_loop [Zero W] : Nat → weights_iterator → weights_iterator → Heap W → Option (Heap W)
  | 0, _, _, _ => none
  | fuel + 1, iter, e, h =>
    if iter.ne e then
      match h.write iter.deref 0 with
      | none => none
      | some h1 => set_zero_loop fuel iter.incr e h1
    else some h

/-- The member `set_zero(size_t offset)`. -/
def set_zero [Zero W] (fuel : Nat) (a : weight_parameters) (h : Heap W) (offset : Nat) :
    Option (weight_parameters × Heap W) :=
  match a.begin_offset offset, a.end_offset offset with
  | some iter, some e => (set_zero_loop fuel iter e h).map (fun h1 => (a, h1))
  | _, _ => none

/-- The 64-bit value of the expression `_weight_mask + 1` used by `end()`. -/
def slot_count (a : weight_parameters) : Nat := (a._weight_mask + 1) % 2 ^ 64

/-- The getter `mask()`. -/
def mask (a : weight_parameters) : Nat := a._weight_mask

/-- The getter `stride_shift()`. -/
def stride_shift (a : weight_parameters) : Nat := a._stride_shift

/-- The setter `stride_shift(uint32_t stride_shift)`. -/
def set_stride_shift (a : weight_parameters) (stride_shift : Nat) : weight_parameters :=
  { a with _stride_shift := stride_shift }

/-- The member `share(size_t length)`, the promotion to shared memory.
`created` tells whether the operating system created the mapping. -/
def share [Zero W] (a : weight_parameters) (h : Heap W) (created : Bool) (length : Nat) :
    Option (weight_parameters × Heap W) :=
  match shl64 length a._stride_shift with
  | none => none
  | some float_count =>
    let (shared_weights, h1) := mmap h ((float_count * sizeof_float) % 2 ^ 64) created
    let dest := shared_weights
    match memcpy h1 dest a._begin ((float_count * sizeof_float) % 2 ^ 64) with
    | none => none
    | some h2 =>
      match free h2 a._begin with
      | none => none
      | some h3 => some ({ a with _begin := dest }, h3)

/-- The destructor `~weight_parameters()`. -/
def destroy (a : weight_parameters) (h : Heap W) : Option (weight_parameters × Heap W) :=
  if a._begin ≠ Ptr.nullptr then
    (free h a._begin).map (fun h1 => ({ a with _begin := Ptr.nullptr }, h1))
  else some (a, h)

end weight_parameters


/-! ## Sequences of operations -/

/-- A mutating public operation on an arena, as a caller issues it. -/
inductive Op (W : Type) where
  | assign (i : Nat) (v : W)
  | set_default_cursor (T : Heap W → weights_iterator → Heap W × weights_iterator)
  | set_default_index (T : Heap W → weights_iterator → Nat → Heap W × weights_iterator)
  | set_default_stride
      (T : Heap W → weights_iterator → Nat → Nat → Heap W × weights_iterator)
  | set_default (t : Heap W → weights_iterator → Nat → Heap W × weights_iterator)
  | set_zero (offset : Nat)
  | stride_shift (new_value : Nat)
  | share (created : Bool) (length : Nat)

/-- The effect of one operation on the handle and the heap.  The visitors of an `Op` act
on the heap and on the cursor they are handed by reference. -/
def Op.apply [Zero W] (fuel : Nat) :
    Op W → weight_parameters × Heap W → Option (weight_parameters × Heap W)
  | Op.assign i v, (a, h) => a.assign h i v
  | Op.set_default_cursor T, (a, h) =>
    (a.set_default_cursor fuel T h).map (fun h1 => (a, h1))
  | Op.set_default_index T, (a, h) =>
    (a.set_default_index fuel T h).map (fun h1 => (a, h1))
  | Op.set_default_stride T, (a, h) =>
    (a.set_default_stride fuel T h).map (fun h1 => (a, h1))
  | Op.set_default t, (a, h) =>
    (a.set_default fuel t h).map (fun h1 => (a, h1))
  | Op.set_zero offset, (a, h) => a.set_zero fuel h offset
  | Op.stride_shift new_value, (a, h) => some (a.set_stride_shift new_value, h)
  | Op.share created length, (a, h) => a.share h created length

/-- The effect of a sequence of operations, applied in order. -/
def Op.run [Zero W] (fuel : Nat) :
    List (Op W) → weight_parameters × Heap W → Option (weight_parameters × Heap W)
  | [], st => some st
  | op :: ops, st =>
    match op.apply fuel st with
    | none => none
    | some st1 => Op.run fuel ops st1

/-- The arena size invariant of the data model: storage is a whole live block and
`mask + 1` is a power of two equal to its slot count. -/
def SizeInvariant (a : weight_parameters) (h : Heap W) : Prop :=
  ∃ b, a._begin = ⟨some b, 0⟩ ∧ (∃ m, a._weight_mask + 1 = 2 ^ m) ∧
    h.size b = some (a._weight_mask + 1)

/-- A heap transformation that only stores weights: it keeps every block and its slot
count. -/
def KeepsSizes (t : Heap W → Heap W) : Prop :=
  ∀ h b, (t h).size b = h.size b

/-- The sequences of operations of the amended size invariant: `cur` is the stride shift
at the start of the sequence; a promotion is issued with the construction length and
only while the stride shift has its construction value `s`; visitors only store
weights. -/
def Admissible (length s : Nat) : Nat → List (Op W) → Prop
  | _, [] => True
  | _, Op.stride_shift new_value :: ops => Admissible length s new_value ops
  | cur, Op.share _ l :: ops => l = length ∧ cur = s ∧ Admissible length s cur ops
  | cur, Op.set_default_cursor T :: ops =>
    (∀ it, KeepsSizes (fun h => (T h it).1)) ∧ Admissible length s cur ops
  | cur, Op.set_default_index T :: ops =>
    (∀ it i, KeepsSizes (fun h => (T h it i).1)) ∧ Admissible length s cur ops
  | cur, Op.set_default_stride T :: ops =>
    (∀ it i st, KeepsSizes (fun h => (T h it i st).1)) ∧ Admissible length s cur ops
  | cur, Op.set_default t :: ops =>
    (∀ it i, KeepsSizes (fun h => (t h it i).1)) ∧ Admissible length s cur ops
  | cur, Op.assign _ _ :: ops => Admissible length s cur ops
  | cur, Op.set_zero _ :: ops => Admissible length s cur ops

/-! ## Well-formed addresses and the inner walk -/

/-- A pointer value that is a 64-bit address: its offset in floats is below `2 ^ 62`.
Every pointer produced by `Ptr.add` is one. -/
def Ptr.Valid (p : Ptr) : Prop := p.off < 2 ^ 62

instance (p : Ptr) : Decidable p.Valid := Nat.decLt _ _

/-- The slots dereferenced by `for (it = b; it != e; ++it) visit(*it)` on inner cursors. -/
def weights_iterator_iterator.visit :
    Nat → weights_iterator_iterator → weights_iterator_iterator → Option (List Ptr)
  | 0, _, _ => none
  | fuel + 1, it, e =>
    if it.ne e then
      (weights_iterator_iterator.visit fuel it.incr e).map (fun ps => it.deref :: ps)
    else some []

/-! ## Recording visitors -/

/-- A visitor that leaves the cursor it is handed where it is (position and stride). -/
def KeepsCursor1 {S : Type} (T : S → weights_iterator → S × weights_iterator) : Prop :=
  ∀ w it, (T w it).2 = it

/-- A visitor with a flat index that leaves the cursor it is handed where it is. -/
def KeepsCursor {S : Type} (T : S → weights_iterator → Nat → S × weights_iterator) : Prop :=
  ∀ w it i, (T w it i).2 = it

/-- A three-argument visitor that leaves the cursor it is handed where it is. -/
def KeepsCursor3 {S : Type} (T : S → weights_iterator → Nat → Nat → S × weights_iterator) :
    Prop :=
  ∀ w it i st, (T w it i st).2 = it

/-- The cursor-only visitor `T`, instrumented to record the cursor of each call. -/
def record1 {S : Type} (T : S → weights_iterator → S × weights_iterator) :
    S × List weights_iterator → weights_iterator →
      (S × List weights_iterator) × weights_iterator :=
  fun w it => (((T w.1 it).1, w.2 ++ [it]), (T w.1 it).2)

/-- The visitor `T` with a flat index, instrumented to record cursor and index of each
call. -/
def record2 {S : Type} (T : S → weights_iterator → Nat → S × weights_iterator) :
    S × List (weights_iterator × Nat) → weights_iterator → Nat →
      (S × List (weights_iterator × Nat)) × weights_iterator :=
  fun w it i => (((T w.1 it i).1, w.2 ++ [(it, i)]), (T w.1 it i).2)

/-- The three-argument visitor `T`, instrumented to record cursor, index and stride of
each call. -/
def record3 {S : Type} (T : S → weights_iterator → Nat → Nat → S × weights_iterator) :
    S × List (weights_iterator × Nat × Nat) → weights_iterator → Nat → Nat →
      (S × List (weights_iterator × Nat × Nat)) × weights_iterator :=
  fun w it i st => (((T w.1 it i st).1, w.2 ++ [(it, i, st)]), (T w.1 it i st).2)

/-! ## Heap lemmas -/

theorem Heap.cells_set_same (h : Heap W) (b : Nat) (c : Option (List W))
    (hb : b < h.blocks.length) :
    (Heap.mk (h.blocks.set b c)).cells b = c := by
  unfold Heap.cells
  simp [List.getElem?_set, hb]
  cases c <;> rfl

theorem Heap.cells_set_other (h : Heap W) (b b1 : Nat) (c : Option (List W))
    (hne : b1 ≠ b) :
    (Heap.mk (h.blocks.set b c)).cells b1 = h.cells b1 := by
  unfold Heap.cells
  have : b ≠ b1 := fun e => hne e.symm
  simp [List.getElem?_set, this]

theorem Heap.cells_lt {h : Heap W} {b : Nat} {xs : List W} (hx : h.cells b = some xs) :
    b < h.blocks.length := by
  unfold Heap.cells at hx
  by_contra hcon
  have : h.blocks[b]? = none := List.getElem?_eq_none (by omega)
  rw [this] at hx
  simp at hx

theorem Heap.cells_append_last (bs : List (Option (List W))) (xs : List W) :
    (Heap.mk (bs ++ [some xs])).cells bs.length = some xs := by
  unfold Heap.cells
  simp

theorem Heap.cells_append_old (bs : List (Option (List W))) (c : Option (List W)) (b : Nat)
    (hb : b < bs.length) :
    (Heap.mk (bs ++ [c])).cells b = (Heap.mk bs).cells b := by
  unfold Heap.cells
  simp [List.getElem?_append_left hb]

theorem Heap.write_spec {h h1 : Heap W} {p : Ptr} {v : W} (hw : h.write p v = some h1) :
    ∃ b xs, p.base = some b ∧ h.cells b = some xs ∧ p.off < xs.length ∧
      h1 = ⟨h.blocks.set b (some (xs.set p.off v))⟩ := by
  unfold Heap.write at hw
  cases hb : p.base with
  | none => simp [hb] at hw
  | some b =>
    simp only [hb] at hw
    cases hx : h.cells b with
    | none => simp [hx] at hw
    | some xs =>
      simp only [hx] at hw
      by_cases hlt : p.off < xs.length
      · simp [hlt] at hw
        exact ⟨b, xs, rfl, hx, hlt, hw.symm⟩
      · simp [hlt] at hw

theorem Heap.write_some {h : Heap W} {b : Nat} {xs : List W} (o : Nat) (v : W)
    (hx : h.cells b = some xs) (ho : o < xs.length) :
    h.write ⟨some b, o⟩ v = some ⟨h.blocks.set b (some (xs.set o v))⟩ := by
  simp [Heap.write, hx, ho]

theorem Heap.read_block {h : Heap W} {b : Nat} {xs : List W} (o : Nat)
    (hx : h.cells b = some xs) : h.read ⟨some b, o⟩ = xs[o]? := by
  simp [Heap.read, hx]

/-! ## Arithmetic of the constructor -/

theorem dec64_zero : dec64 0 = 2 ^ 64 - 1 := by
  unfold dec64
  norm_num

theorem dec64_pos {n : Nat} (h0 : 0 < n) (hn : n < 2 ^ 64) : dec64 n = n - 1 := by
  unfold dec64
  have h1 : n + (2 ^ 64 - 1) = (n - 1) + 2 ^ 64 := by omega
  rw [h1, Nat.add_mod_right]
  exact Nat.mod_eq_of_lt (by omega)

theorem shl64_lt {x s n : Nat} (h : shl64 x s = some n) : n < 2 ^ 64 := by
  unfold shl64 at h
  split at h
  · cases h
    exact Nat.mod_lt _ (by positivity)
  · cases h

/-- What a successful construction returns. -/
theorem weight_parameters.construct_spec {h0 h : Heap W} {fill : Nat → W} {length s : Nat}
    {a : weight_parameters}
    (hc : weight_parameters.construct h0 fill length s = some (a, h)) :
    ∃ n, shl64 length s = some n ∧ n * 4 < 2 ^ 64 ∧
      a = ⟨⟨some h0.blocks.length, 0⟩, dec64 n, s⟩ ∧
      h = ⟨h0.blocks ++ [some ((List.range n).map fill)]⟩ := by
  unfold weight_parameters.construct at hc
  cases hn : shl64 length s with
  | none => simp [hn] at hc
  | some n =>
    simp only [hn] at hc
    unfold calloc_mergable_or_throw sizeof_float at hc
    by_cases hb : n * 4 < 2 ^ 64
    · rw [if_pos hb] at hc
      simp only [Option.some.injEq, Prod.mk.injEq] at hc
      exact ⟨n, rfl, hb, hc.1.symm, hc.2.symm⟩
    · rw [if_neg hb] at hc
      cases hc

/-- The mask of an arena with a non-empty storage is its slot count minus one. -/
theorem mask_succ_of_pos {n : Nat} (h0 : 0 < n) (hn : n < 2 ^ 64) : dec64 n + 1 = n := by
  rw [dec64_pos h0 hn]
  omega

/-- A power-of-two length yields a mask of the form `2 ^ m - 1`. -/
theorem mask_pow_two {e s n : Nat} (h : shl64 (2 ^ e) s = some n) :
    ∃ m, m ≤ 64 ∧ dec64 n = 2 ^ m - 1 := by
  unfold shl64 at h
  split at h
  · cases h
    rw [← pow_add]
    by_cases hes : e + s < 64
    · refine ⟨e + s, by omega, ?_⟩
      have hlt : 2 ^ (e + s) < 2 ^ 64 := Nat.pow_lt_pow_right (by norm_num) hes
      rw [Nat.mod_eq_of_lt hlt]
      exact dec64_pos (by positivity) hlt
    · refine ⟨64, le_refl _, ?_⟩
      have hd : 2 ^ 64 ∣ 2 ^ (e + s) := pow_dvd_pow 2 (by omega)
      rw [Nat.mod_eq_zero_of_dvd hd]
      exact dec64_zero
  · cases h

theorem slot_count_dec64 {n : Nat} (hn : n < 2 ^ 64) : (dec64 n + 1) % 2 ^ 64 = n := by
  unfold dec64
  omega

/-! ## Pointer arithmetic -/

theorem Ptr.add_small (bs : Option Nat) (o k : Nat) (hk : o + k < 2 ^ 62) :
    (Ptr.mk bs o).add k = ⟨bs, o + k⟩ := by
  simp only [Ptr.add, Ptr.mk.injEq, true_and]
  exact Nat.mod_eq_of_lt hk

theorem Ptr.add_add (p : Ptr) (x y : Nat) : (p.add x).add y = p.add (x + y) := by
  simp only [Ptr.add, Ptr.mk.injEq, true_and]
  omega

theorem Ptr.add_mod (p : Ptr) (x : Nat) : p.add (x % 2 ^ 64) = p.add x := by
  simp only [Ptr.add, Ptr.mk.injEq, true_and]
  omega

/-! ## Constructed arenas -/

/-- The block a successfully constructed arena owns: `n` is the allocated slot count. -/
theorem weight_parameters.construct_block {h0 h : Heap W} {fill : Nat → W} {length s : Nat}
    {a : weight_parameters}
    (hc : weight_parameters.construct h0 fill length s = some (a, h)) :
    ∃ n, shl64 length s = some n ∧ n < 2 ^ 62 ∧
      a._begin = ⟨some h0.blocks.length, 0⟩ ∧ a._weight_mask = dec64 n ∧ a._stride_shift = s ∧
      a.slot_count = n ∧
      h.cells h0.blocks.length = some ((List.range n).map fill) := by
  obtain ⟨n, hn, hb, ha, hh⟩ := weight_parameters.construct_spec hc
  subst ha hh
  refine ⟨n, hn, by omega, rfl, rfl, rfl, ?_, Heap.cells_append_last _ _⟩
  exact slot_count_dec64 (shl64_lt hn)

/-- An arena whose allocated slot count is not zero has `mask + 1` slots. -/
theorem weight_parameters.construct_nonempty {h0 h : Heap W} {fill : Nat → W} {length s : Nat}
    {a : weight_parameters}
    (hc : weight_parameters.construct h0 fill length s = some (a, h))
    (hn : shl64 length s ≠ some 0) :
    ∃ n, 0 < n ∧ n < 2 ^ 62 ∧ shl64 length s = some n ∧
      a._begin = ⟨some h0.blocks.length, 0⟩ ∧ a._weight_mask + 1 = n ∧ a._stride_shift = s ∧
      h.cells h0.blocks.length = some ((List.range n).map fill) := by
  obtain ⟨n, hsh, hb, hbeg, hmask, hst, _, hcells⟩ := weight_parameters.construct_block hc
  have hpos : 0 < n := by
    rcases Nat.eq_zero_or_pos n with h0 | h0
    · exact absurd (h0 ▸ hsh) hn
    · exact h0
  refine ⟨n, hpos, hb, hsh, hbeg, ?_, hst, hcells⟩
  rw [hmask]
  exact mask_succ_of_pos hpos (shl64_lt hsh)

/-- For a constructed arena the slot count is `mask + 1`, except when the shift wrapped to
0 slots, where the mask is `2 ^ 64 - 1`. -/
theorem weight_parameters.slot_count_cases {h0 h : Heap W} {fill : Nat → W} {length s : Nat}
    {a : weight_parameters}
    (hc : weight_parameters.construct h0 fill length s = some (a, h)) :
    a.slot_count = a._weight_mask + 1 ∨ (a.slot_count = 0 ∧ a._weight_mask = 2 ^ 64 - 1) := by
  obtain ⟨n, hn, _, _, hmask, _, hslot, _⟩ := weight_parameters.construct_block hc
  rcases Nat.eq_zero_or_pos n with h0 | h0
  · right
    subst h0
    exact ⟨hslot, by rw [hmask, dec64_zero]⟩
  · left
    rw [hslot, hmask, mask_succ_of_pos h0 (shl64_lt hn)]

theorem weight_parameters.index_eq (a : weight_parameters) (b : Nat)
    (hb : a._begin = ⟨some b, 0⟩) (hm : a._weight_mask < 2 ^ 62) (i : Nat) :
    a.index i = ⟨some b, i &&& a._weight_mask⟩ := by
  have := @Nat.and_le_right i a._weight_mask
  unfold weight_parameters.index
  rw [hb, Ptr.add_small _ _ _ (by omega), Nat.zero_add]

/-- The position of `end()`: the slot count past the start of storage. -/
theorem weight_parameters.end_current (a : weight_parameters) (b n : Nat)
    (hb : a._begin = ⟨some b, 0⟩) (hs : a.slot_count = n) (hn : n < 2 ^ 62) :
    a.end_._current = ⟨some b, n⟩ := by
  unfold weight_parameters.slot_count at hs
  simp only [weight_parameters.end_, Ptr.add, hb, Ptr.mk.injEq, true_and]
  omega

/-- Reading after a write inside one block. -/
theorem Heap.read_write {h : Heap W} {b : Nat} {xs : List W} (o q : Nat) (v : W)
    (hx : h.cells b = some xs) (ho : o < xs.length) :
    (Heap.mk (h.blocks.set b (some (xs.set o v)))).read ⟨some b, q⟩ =
      if q = o then some v else h.read ⟨some b, q⟩ := by
  have hlt := Heap.cells_lt hx
  rw [Heap.read_block q (Heap.cells_set_same h b _ hlt), Heap.read_block q hx]
  by_cases hq : q = o
  · subst hq
    simp [ho]
  · have : o ≠ q := fun e => hq e.symm
    simp [hq, List.getElem?_set, this]

/-! ## Addressing: C1, C2, C3, C10 -/

/-- C1: for an arena built by `Construct(length, stride_shift)` with `length >= 1` and
`length << stride_shift` representable in 64 bits, the folded position `i & mask` of any
index is below the number of allocated slots `length << stride_shift`, so `arena[i]`
addresses a slot of the storage. -/
theorem C1_index_in_bounds (h0 h : Heap W) (fill : Nat → W) (length s : Nat)
    (a : weight_parameters)
    (hc : weight_parameters.construct h0 fill length s = some (a, h))
    (hlen : 1 ≤ length) (hrep : length * 2 ^ s < 2 ^ 64) (i : Nat) :
    ∃ b, a._begin = ⟨some b, 0⟩ ∧ h.size b = some (length * 2 ^ s) ∧
      a.index i = ⟨some b, i &&& a._weight_mask⟩ ∧
      i &&& a._weight_mask < length * 2 ^ s ∧ ∃ v, a.get h i = some v := by
  obtain ⟨n, hn, hb, hbeg, hmask, _, _, hcells⟩ := weight_parameters.construct_block hc
  have hs : s < 64 := by
    unfold shl64 at hn
    by_contra hcon
    simp [hcon] at hn
  have hn2 : n = length * 2 ^ s := by
    unfold shl64 at hn
    simp only [hs, if_true, Option.some.injEq] at hn
    rw [← hn]
    exact Nat.mod_eq_of_lt hrep
  have hpos : 0 < n := by
    rw [hn2]
    exact Nat.mul_pos (by omega) (by positivity)
  have hlt : n < 2 ^ 64 := hn2 ▸ hrep
  have hm : a._weight_mask = n - 1 := by rw [hmask, dec64_pos hpos hlt]
  have hand : i &&& a._weight_mask < n := by
    have := @Nat.and_le_right i a._weight_mask
    omega
  have hidx := weight_parameters.index_eq a _ hbeg (by omega) i
  refine ⟨h0.blocks.length, hbeg, ?_, hidx, hn2 ▸ hand, ?_⟩
  · simp [Heap.size, hcells, hn2]
  · unfold weight_parameters.get
    rw [hidx, Heap.read_block _ hcells]
    have hl : i &&& a._weight_mask < ((List.range n).map fill).length := by simpa using hand
    exact ⟨_, List.getElem?_eq_getElem hl⟩

/-- Witness of C1: `Construct(4, 1)` and the index `13`. -/
theorem C1_index_in_bounds_witness :
    ∃ b, (⟨⟨some 0, 0⟩, 7, 1⟩ : weight_parameters)._begin = ⟨some b, 0⟩ ∧
      (⟨[some [0, 0, 0, 0, 0, 0, 0, 0]]⟩ : Heap Int).size b = some (4 * 2 ^ 1) ∧
      (⟨⟨some 0, 0⟩, 7, 1⟩ : weight_parameters).index 13 = ⟨some b, 13 &&& 7⟩ ∧
      13 &&& 7 < 4 * 2 ^ 1 ∧
      ∃ v, (⟨⟨some 0, 0⟩, 7, 1⟩ : weight_parameters).get
        (⟨[some [0, 0, 0, 0, 0, 0, 0, 0]]⟩ : Heap Int) 13 = some v :=
  C1_index_in_bounds ⟨[]⟩ _ (fun _ => (0 : Int)) 4 1 _ (by decide) (by decide) (by decide) 13

/-- C2 (amended): for an arena built by `Construct(length, stride_shift)` whose slot count
`length << stride_shift` is not 0 in 64-bit arithmetic, writing `v` through `arena[i]`
succeeds and leaves the handle (mask, stride_shift) unchanged; afterwards `arena[j]` reads
`v` when `j & mask = i & mask` and its previous value otherwise, and `arena[i & mask]`
reads `v`. -/
theorem C2_write_then_read (h0 h : Heap W) (fill : Nat → W) (length s : Nat)
    (a : weight_parameters)
    (hc : weight_parameters.construct h0 fill length s = some (a, h))
    (hn : shl64 length s ≠ some 0) (i j : Nat) (v : W) :
    ∃ h1, a.assign h i v = some (a, h1) ∧
      a.get h1 j =
        (if j &&& a._weight_mask = i &&& a._weight_mask then some v else a.get h j) ∧
      (∃ w, a.get h j = some w) ∧
      a.get h1 (i &&& a._weight_mask) = some v := by
  obtain ⟨n, hpos, hb, _, hbeg, hmask, _, hcells⟩ := weight_parameters.construct_nonempty hc hn
  have hand : ∀ k, k &&& a._weight_mask < ((List.range n).map fill).length := by
    intro k
    have := @Nat.and_le_right k a._weight_mask
    simp
    omega
  have hidx := weight_parameters.index_eq a _ hbeg (by omega)
  have hw := Heap.write_some (i &&& a._weight_mask) v hcells (hand i)
  refine ⟨Heap.mk (h.blocks.set h0.blocks.length
    (some (((List.range n).map fill).set (i &&& a._weight_mask) v))), ?_, ?_, ?_, ?_⟩
  · unfold weight_parameters.assign
    rw [hidx i, hw]
    rfl
  · unfold weight_parameters.get
    rw [hidx j, Heap.read_write _ _ v hcells (hand i)]
  · unfold weight_parameters.get
    rw [hidx j, Heap.read_block _ hcells]
    exact ⟨_, List.getElem?_eq_getElem (hand j)⟩
  · unfold weight_parameters.get
    rw [hidx _, Heap.read_write _ _ v hcells (hand i)]
    simp [Nat.and_assoc]

/-- Witness of C2: `Construct(4, 1)` holding `10, 20, ..., 80`; after `arena[5] = 99` the
reads of `arena[13]` (the same slot, `13 & 7 = 5`) and of `arena[5 & 7]` yield `99`.
Also `Construct(4, 0)`: after `arena[0] = 10` the read of `arena[4]` yields `10`. -/
theorem C2_write_then_read_witness :
    (∃ h1, (⟨⟨some 0, 0⟩, 7, 1⟩ : weight_parameters).assign
        (⟨[some [10, 20, 30, 40, 50, 60, 70, 80]]⟩ : Heap Int) 5 99 =
          some (⟨⟨some 0, 0⟩, 7, 1⟩, h1) ∧
      (⟨⟨some 0, 0⟩, 7, 1⟩ : weight_parameters).get h1 13 =
        (if 13 &&& 7 = 5 &&& 7 then some 99
          else (⟨⟨some 0, 0⟩, 7, 1⟩ : weight_parameters).get
            (⟨[some [10, 20, 30, 40, 50, 60, 70, 80]]⟩ : Heap Int) 13) ∧
      (∃ w, (⟨⟨some 0, 0⟩, 7, 1⟩ : weight_parameters).get
        (⟨[some [10, 20, 30, 40, 50, 60, 70, 80]]⟩ : Heap Int) 13 = some w) ∧
      (⟨⟨some 0, 0⟩, 7, 1⟩ : weight_parameters).get h1 (5 &&& 7) = some 99) ∧
      ((weight_parameters.construct (⟨[]⟩ : Heap Int) (fun _ => 0) 4 0).bind
        (fun r => (r.1.assign r.2 0 10).bind (fun r1 => r1.1.get r1.2 4))) = some 10 :=
  ⟨C2_write_then_read ⟨[]⟩ _ (fun k => ((k : Int) + 1) * 10) 4 1 _ (by decide) (by decide)
    5 13 99, by decide⟩

/-- Counterexample to C2 as stated: `Construct(2 ^ 63, 1)` has a power-of-two length, its
slot count `2 ^ 63 << 1` wraps to 0 while the mask becomes `2 ^ 64 - 1`, and the write
`arena[5] = 1` falls outside the empty storage, as does the read of `arena[5]`. -/
theorem C2_counterexample :
    weight_parameters.construct (⟨[]⟩ : Heap Int) (fun _ => 0) (2 ^ 63) 1 =
        some (⟨⟨some 0, 0⟩, 2 ^ 64 - 1, 1⟩, ⟨[some []]⟩) ∧
      (⟨⟨some 0, 0⟩, 2 ^ 64 - 1, 1⟩ : weight_parameters).assign
        (⟨[some []]⟩ : Heap Int) 5 1 = none ∧
      (⟨⟨some 0, 0⟩, 2 ^ 64 - 1, 1⟩ : weight_parameters).get
        (⟨[some []]⟩ : Heap Int) 5 = none := by
  decide

/-- Folding with a mask `2 ^ m - 1` is reduction modulo `2 ^ m`, which absorbs integer
multiples of `2 ^ m`. -/
theorem land_mask_periodic (m i j : Nat) (k : Int)
    (hk : (j : Int) = i + k * (((2 ^ m - 1 : Nat) : Int) + 1)) :
    j &&& (2 ^ m - 1) = i &&& (2 ^ m - 1) := by
  rw [Nat.and_pow_two_sub_one_eq_mod, Nat.and_pow_two_sub_one_eq_mod]
  have hpos : 1 ≤ 2 ^ m := Nat.one_le_two_pow
  have hc : (((2 ^ m - 1 : Nat) : Int) + 1) = ((2 ^ m : Nat) : Int) := by
    have : 2 ^ m - 1 + 1 = 2 ^ m := by omega
    exact_mod_cast this
  rw [hc] at hk
  have h1 : ((j : Int) % ((2 ^ m : Nat) : Int)) = ((i : Int) % ((2 ^ m : Nat) : Int)) := by
    rw [hk, Int.add_mul_emod_self]
  exact_mod_cast h1

/-- C3: for an arena built by `Construct` with `length` a power of two, two indices that
differ by an integer multiple of `mask + 1` fold to the same position, so `arena[i]` and
`arena[i + k * (mask + 1)]` are the identical slot. -/
theorem C3_mask_periodic (h0 h : Heap W) (fill : Nat → W) (length s : Nat)
    (a : weight_parameters)
    (hc : weight_parameters.construct h0 fill length s = some (a, h))
    (hpow : ∃ e, length = 2 ^ e) (i j : Nat) (k : Int)
    (hk : (j : Int) = i + k * ((a._weight_mask : Int) + 1)) :
    j &&& a._weight_mask = i &&& a._weight_mask ∧ a.index j = a.index i := by
  obtain ⟨e, he⟩ := hpow
  subst he
  obtain ⟨n, hn, _, _, hmask, _, _, _⟩ := weight_parameters.construct_block hc
  obtain ⟨m, _, hm⟩ := mask_pow_two hn
  have hmm : a._weight_mask = 2 ^ m - 1 := by rw [hmask, hm]
  have key : j &&& a._weight_mask = i &&& a._weight_mask := by
    rw [hmm] at hk ⊢
    exact land_mask_periodic m i j k hk
  exact ⟨key, by unfold weight_parameters.index; rw [key]⟩

/-- Witness of C3: `Construct(4, 1)` (mask 7), `i = 5`, `k = 3`, `j = 29`. -/
theorem C3_mask_periodic_witness :
    29 &&& (⟨⟨some 0, 0⟩, 7, 1⟩ : weight_parameters)._weight_mask =
        5 &&& (⟨⟨some 0, 0⟩, 7, 1⟩ : weight_parameters)._weight_mask ∧
      (⟨⟨some 0, 0⟩, 7, 1⟩ : weight_parameters).index 29 =
        (⟨⟨some 0, 0⟩, 7, 1⟩ : weight_parameters).index 5 :=
  C3_mask_periodic ⟨[]⟩ ⟨[some [0, 0, 0, 0, 0, 0, 0, 0]]⟩ (fun _ => (0 : Int)) 4 1 _
    (by decide) ⟨2, by decide⟩ 5 29 3 (by decide)

/-- C10: the setter `stride_shift(new_value)` is pure bookkeeping: as an operation it
returns the same heap (same storage, same slots, same contents); the getter then returns
`new_value`, `mask()` and the storage pointer are as before, and every `arena[i]` denotes
the same slot and reads the same value. -/
theorem C10_stride_shift_setter [Zero W] (fuel : Nat) (a : weight_parameters) (h : Heap W)
    (new_value : Nat) :
    Op.apply fuel (Op.stride_shift new_value) (a, h) = some (a.set_stride_shift new_value, h) ∧
      (a.set_stride_shift new_value).stride_shift = new_value ∧
      (a.set_stride_shift new_value).mask = a.mask ∧
      (a.set_stride_shift new_value).first = a.first ∧
      (∀ i, (a.set_stride_shift new_value).index i = a.index i) ∧
      (∀ i, (a.set_stride_shift new_value).get h i = a.get h i) :=
  ⟨rfl, rfl, rfl, rfl, fun _ => rfl, fun _ => rfl⟩

/-! ## Cursor walks: C4, C5 -/

/-- A walk whose end cursor lies `k` strides ahead visits `k` slots, one stride apart. -/
theorem weights_iterator.visit_spec (bs : Option Nat) (st : Nat) (hst : 0 < st)
    (e : weights_iterator) :
    ∀ (k fuel o : Nat), k < fuel → o + k * st < 2 ^ 62 → e._current = ⟨bs, o + k * st⟩ →
      weights_iterator.visit fuel ⟨⟨bs, o⟩, st⟩ e =
        some ((List.range k).map (fun j => (⟨bs, o + j * st⟩ : Ptr))) := by
  intro k
  induction k with
  | zero =>
    intro fuel o hf _ he
    obtain ⟨f, rfl⟩ : ∃ f, fuel = f + 1 := ⟨fuel - 1, by omega⟩
    simp [weights_iterator.visit, weights_iterator.ne, he]
  | succ k ih =>
    intro fuel o hf hb he
    obtain ⟨f, rfl⟩ : ∃ f, fuel = f + 1 := ⟨fuel - 1, by omega⟩
    have hks : (k + 1) * st = st + k * st := by rw [Nat.succ_mul]; omega
    have hne : (⟨bs, o⟩ : Ptr) ≠ e._current := by
      rw [he]
      intro hcon
      have h2 := congrArg Ptr.off hcon
      simp only at h2
      omega
    have hstep : (⟨bs, o⟩ : Ptr).add st = ⟨bs, o + st⟩ := Ptr.add_small bs o st (by omega)
    have hrec := ih f (o + st) (by omega) (by omega) (by rw [he]; congr 1; omega)
    simp only [weights_iterator.visit, weights_iterator.ne, weights_iterator.incr,
      weights_iterator.deref, hne, ne_eq, not_false_eq_true, decide_True, if_true, hstep, hrec,
      Option.map_some']
    rw [List.range_succ_eq_map]
    simp only [List.map_cons, List.map_map, Nat.zero_mul, Nat.add_zero]
    congr 2
    apply List.map_congr_left
    intro j _
    simp only [Function.comp, Ptr.mk.injEq, true_and]
    rw [Nat.succ_mul]
    omega

theorem stride_of_spec {s stride : Nat} (hs : stride_of s = some stride) :
    s < 32 ∧ stride = 2 ^ s := by
  unfold stride_of at hs
  split at hs
  · exact ⟨by assumption, by cases hs; rfl⟩
  · cases hs

/-- The slot count of a constructed arena is a whole number of buckets, and a strided end
cursor does not wrap. -/
theorem buckets_spec {length s n stride : Nat} (hn : shl64 length s = some n)
    (hb : n < 2 ^ 62) (hs : stride_of s = some stride) :
    0 < stride ∧ n = (n / stride) * stride ∧ n + stride ≤ 2 ^ 62 := by
  obtain ⟨hs32, rfl⟩ := stride_of_spec hs
  have hpos : 0 < 2 ^ s := by positivity
  have hdvd : 2 ^ s ∣ n := by
    unfold shl64 at hn
    rw [if_pos (by omega)] at hn
    cases hn
    exact (Nat.dvd_mod_iff (pow_dvd_pow 2 (by omega))).mpr (Nat.dvd_mul_left _ _)
  have h62 : 2 ^ s ∣ 2 ^ 62 := pow_dvd_pow 2 (by omega)
  refine ⟨hpos, (Nat.div_mul_cancel hdvd).symm, ?_⟩
  obtain ⟨q, hq⟩ := hdvd
  obtain ⟨r, hr⟩ := h62
  rw [hq, hr] at hb
  have hqr : q < r := Nat.lt_of_mul_lt_mul_left hb
  calc n + 2 ^ s = 2 ^ s * (q + 1) := by rw [hq]; ring
    _ ≤ 2 ^ s * r := Nat.mul_le_mul_left _ hqr
    _ = 2 ^ 62 := hr.symm

/-- The strided cursors of a constructed arena. -/
theorem weight_parameters.strided_cursors (a : weight_parameters) (b n stride offset : Nat)
    (hbeg : a._begin = ⟨some b, 0⟩) (hslot : a.slot_count = n)
    (hs : stride_of a._stride_shift = some stride) (hb : n + offset < 2 ^ 62) :
    a.begin_offset offset = some ⟨⟨some b, offset⟩, stride⟩ ∧
      a.end_offset offset = some ⟨⟨some b, offset + n⟩, stride⟩ := by
  have hend := weight_parameters.end_current a b n hbeg hslot (by omega)
  unfold weight_parameters.end_ at hend
  simp only at hend
  unfold weight_parameters.begin_offset weight_parameters.end_offset
  rw [hs, hend, hbeg, Ptr.add_small _ _ _ (by omega), Ptr.add_small _ _ _ (by omega)]
  simp [Nat.add_comm]

/-- C5 (amended): for an arena built by `Construct(length, stride_shift)` with
`stride_shift < 32`, so that `stride = 1 << stride_shift` is defined, and an
`offset < stride`, advancing `begin(offset)` with `++` until it equals `end(offset)` visits exactly `(mask + 1) / stride` slots (`mask + 1` the
64-bit value, i.e. the slot count), namely the positions `offset + b * stride` for
`b = 0, 1, ...` in bucket order: one per bucket, at the same offset within the bucket, and
inside storage.  The slot count is `mask + 1` unless the constructor's shift wrapped to 0
slots. -/
theorem C5_strided_iteration (h0 h : Heap W) (fill : Nat → W) (length s : Nat)
    (a : weight_parameters) (stride offset : Nat)
    (hc : weight_parameters.construct h0 fill length s = some (a, h))
    (hs : stride_of s = some stride) (ho : offset < stride)
    (fuel : Nat) (hf : a.slot_count / stride < fuel) :
    ∃ bi ei, a.begin_offset offset = some bi ∧ a.end_offset offset = some ei ∧
      bi._stride = stride ∧
      weights_iterator.visit fuel bi ei =
        some ((List.range (a.slot_count / stride)).map
          (fun b => a._begin.add (offset + b * stride))) ∧
      (∀ b, b < a.slot_count / stride →
        (offset + b * stride) / stride = b ∧ (offset + b * stride) % stride = offset ∧
        offset + b * stride < a.slot_count ∧
        ∃ v, h.read (a._begin.add (offset + b * stride)) = some v) ∧
      (a.slot_count = a._weight_mask + 1 ∨
        (a.slot_count = 0 ∧ a._weight_mask = 2 ^ 64 - 1)) := by
  obtain ⟨n, hn, hb, hbeg, _, hst, hslot, hcells⟩ := weight_parameters.construct_block hc
  obtain ⟨hpos, hdiv, hbound⟩ := buckets_spec hn hb hs
  obtain ⟨hbi, hei⟩ := weight_parameters.strided_cursors a _ n stride offset hbeg hslot
    (hst ▸ hs) (by omega)
  have hcases := weight_parameters.slot_count_cases hc
  rw [hslot] at hf hcases ⊢
  have hin : ∀ b, b < n / stride → offset + b * stride < n := by
    intro b hlt
    have h1 : (b + 1) * stride ≤ (n / stride) * stride := Nat.mul_le_mul_right _ hlt
    rw [Nat.succ_mul] at h1
    omega
  have hadd : ∀ b, b < n / stride →
      a._begin.add (offset + b * stride) = ⟨some h0.blocks.length, offset + b * stride⟩ := by
    intro b hlt
    have := hin b hlt
    rw [hbeg, Ptr.add_small _ _ _ (by omega), Nat.zero_add]
  refine ⟨_, _, hbi, hei, rfl, ?_, ?_, hcases⟩
  · rw [weights_iterator.visit_spec (some h0.blocks.length) stride hpos _ (n / stride) fuel
      offset hf (by omega) (by simp only; rw [← hdiv])]
    congr 1
    apply List.map_congr_left
    intro b hmem
    rw [hadd b (by simpa using hmem)]
  · intro b hlt
    refine ⟨?_, ?_, hin b hlt, ?_⟩
    · rw [Nat.add_mul_div_right _ _ hpos, Nat.div_eq_of_lt ho, Nat.zero_add]
    · rw [Nat.add_mul_mod_self_right, Nat.mod_eq_of_lt ho]
    · rw [hadd b hlt, Heap.read_block _ hcells]
      exact ⟨_, List.getElem?_eq_getElem (by simpa using hin b hlt)⟩

/-- Witness of C5: `Construct(4, 1)` (stride 2, 8 slots) and `offset = 1`: the walk visits
the positions `1, 3, 5, 7`. -/
theorem C5_strided_iteration_witness :
    ∃ bi ei, (⟨⟨some 0, 0⟩, 7, 1⟩ : weight_parameters).begin_offset 1 = some bi ∧
      (⟨⟨some 0, 0⟩, 7, 1⟩ : weight_parameters).end_offset 1 = some ei ∧
      bi._stride = 2 ∧
      weights_iterator.visit 5 bi ei =
        some ((List.range ((⟨⟨some 0, 0⟩, 7, 1⟩ : weight_parameters).slot_count / 2)).map
          (fun b => (⟨some 0, 0⟩ : Ptr).add (1 + b * 2))) ∧
      (∀ b, b < (⟨⟨some 0, 0⟩, 7, 1⟩ : weight_parameters).slot_count / 2 →
        (1 + b * 2) / 2 = b ∧ (1 + b * 2) % 2 = 1 ∧
        1 + b * 2 < (⟨⟨some 0, 0⟩, 7, 1⟩ : weight_parameters).slot_count ∧
        ∃ v, (⟨[some [10, 20, 30, 40, 50, 60, 70, 80]]⟩ : Heap Int).read
          ((⟨some 0, 0⟩ : Ptr).add (1 + b * 2)) = some v) ∧
      ((⟨⟨some 0, 0⟩, 7, 1⟩ : weight_parameters).slot_count = 7 + 1 ∨
        ((⟨⟨some 0, 0⟩, 7, 1⟩ : weight_parameters).slot_count = 0 ∧ 7 = 2 ^ 64 - 1)) :=
  C5_strided_iteration ⟨[]⟩ _ (fun k => ((k : Int) + 1) * 10) 4 1 _ 2 1 (by decide) (by decide)
    (by decide) 5 (by decide)

/-- Counterexample to C5 as stated: `Construct(1, 32)` builds an arena (mask `2 ^ 32 - 1`,
stride_shift 32, `2 ^ 32` slots), but the stride expression `1 << 32` on a 32-bit `int` is
undefined: `begin(0)` and `end(0)` have no value, so there is no walk from one to the
other. -/
theorem C5_counterexample :
    (weight_parameters.construct (⟨[]⟩ : Heap Int) (fun _ => 0) 1 32).map
        (fun r => r.1) = some ⟨⟨some 0, 0⟩, 2 ^ 32 - 1, 32⟩ ∧
      (⟨⟨some 0, 0⟩, 2 ^ 32 - 1, 32⟩ : weight_parameters).slot_count = 2 ^ 32 ∧
      stride_of 32 = none ∧
      (⟨⟨some 0, 0⟩, 2 ^ 32 - 1, 32⟩ : weight_parameters).begin_offset 0 = none ∧
      (⟨⟨some 0, 0⟩, 2 ^ 32 - 1, 32⟩ : weight_parameters).end_offset 0 = none := by
  decide

/-! ## Zeroing: C6 -/

/-- The loop of `set_zero` started `k` strides before its end cursor stores `0` into the
`k` slots it steps over and nothing else. -/
theorem weight_parameters.set_zero_loop_spec [Zero W] (b st : Nat) (hst : 0 < st)
    (e : weights_iterator) :
    ∀ (k fuel o : Nat) (h : Heap W) (xs : List W), k < fuel → h.cells b = some xs →
      o + k * st < 2 ^ 62 → (∀ j, j < k → o + j * st < xs.length) →
      e._current = ⟨some b, o + k * st⟩ →
      ∃ h1 ys, weight_parameters.set_zero_loop fuel ⟨⟨some b, o⟩, st⟩ e h = some h1 ∧
        h1.cells b = some ys ∧ ys.length = xs.length ∧
        (∀ j, j < k → ys[o + j * st]? = some 0) ∧
        (∀ q, (∀ j, j < k → q ≠ o + j * st) → ys[q]? = xs[q]?) := by
  intro k
  induction k with
  | zero =>
    intro fuel o h xs hf hx _ _ he
    obtain ⟨f, rfl⟩ : ∃ f, fuel = f + 1 := ⟨fuel - 1, by omega⟩
    refine ⟨h, xs, ?_, hx, rfl, fun j hj => absurd hj (Nat.not_lt_zero j), fun _ _ => rfl⟩
    simp [weight_parameters.set_zero_loop, weights_iterator.ne, he]
  | succ k ih =>
    intro fuel o h xs hf hx hb hin he
    obtain ⟨f, rfl⟩ : ∃ f, fuel = f + 1 := ⟨fuel - 1, by omega⟩
    have hks : (k + 1) * st = st + k * st := by rw [Nat.succ_mul]; omega
    have ho : o < xs.length := by simpa using hin 0 (Nat.succ_pos k)
    have hne : (⟨some b, o⟩ : Ptr) ≠ e._current := by
      rw [he]
      intro hcon
      have h2 := congrArg Ptr.off hcon
      simp only at h2
      omega
    have hstep : (⟨some b, o⟩ : Ptr).add st = ⟨some b, o + st⟩ :=
      Ptr.add_small _ o st (by omega)
    have hw := Heap.write_some o (0 : W) hx ho
    have hx1 := Heap.cells_set_same h b (some (xs.set o 0)) (Heap.cells_lt hx)
    obtain ⟨h1, ys, hrun, hy, hlen, hz, hk⟩ := ih f (o + st) _ (xs.set o 0) (by omega) hx1
      (by omega)
      (by
        intro j hj
        have := hin (j + 1) (by omega)
        rw [Nat.succ_mul] at this
        simp only [List.length_set]
        omega)
      (by rw [he]; congr 1; omega)
    refine ⟨h1, ys, ?_, hy, by simpa using hlen, ?_, ?_⟩
    · simp only [weight_parameters.set_zero_loop, weights_iterator.ne, weights_iterator.incr,
        weights_iterator.deref, hne, ne_eq, not_false_eq_true, decide_True, if_true, hw,
        hstep, hrun]
    · intro j hj
      rcases Nat.eq_zero_or_pos j with h0 | h0
      · subst h0
        rw [Nat.zero_mul, Nat.add_zero,
          hk o (fun i _ => by have := Nat.zero_le (i * st); omega)]
        simp [ho]
      · obtain ⟨i, rfl⟩ : ∃ i, j = i + 1 := ⟨j - 1, by omega⟩
        have := hz i (by omega)
        rw [Nat.succ_mul]
        rw [show o + (i * st + st) = o + st + i * st by omega]
        exact this
    · intro q hq
      have hq0 : q ≠ o := by simpa using hq 0 (Nat.succ_pos k)
      rw [hk q (fun i hi => by
        have := hq (i + 1) (by omega)
        rw [Nat.succ_mul] at this
        omega)]
      have : o ≠ q := fun e => hq0 e.symm
      simp [List.getElem?_set, this]

/-- C6 (amended): for an arena built by `Construct(length, stride_shift)` with
`stride_shift < 32`, so that `stride = 1 << stride_shift` is defined, any contents and
every `offset < stride`, `set_zero(offset)` completes and returns the handle unchanged (same
mask and stride_shift); storage keeps its slot count, and afterwards every storage slot at
a position `p` with `p mod stride = offset` reads `0` and every other storage slot holds
the value it held before. -/
theorem C6_set_zero [Zero W] (h0 h : Heap W) (fill : Nat → W) (length s : Nat)
    (a : weight_parameters) (stride offset : Nat)
    (hc : weight_parameters.construct h0 fill length s = some (a, h))
    (hs : stride_of s = some stride) (ho : offset < stride)
    (fuel : Nat) (hf : a.slot_count / stride < fuel) :
    ∃ h1, a.set_zero fuel h offset = some (a, h1) ∧
      (∃ b, a._begin = ⟨some b, 0⟩ ∧ h.size b = some a.slot_count ∧
        h1.size b = some a.slot_count) ∧
      ∀ p, p < a.slot_count →
        (∃ v, h.read (a._begin.add p) = some v) ∧
        h1.read (a._begin.add p) =
          (if p % stride = offset then some 0 else h.read (a._begin.add p)) := by
  obtain ⟨n, hn, hb, hbeg, _, hst, hslot, hcells⟩ := weight_parameters.construct_block hc
  obtain ⟨hpos, hdiv, hbound⟩ := buckets_spec hn hb hs
  obtain ⟨hbi, hei⟩ := weight_parameters.strided_cursors a _ n stride offset hbeg hslot
    (hst ▸ hs) (by omega)
  rw [hslot] at hf ⊢
  have hin : ∀ j, j < n / stride → offset + j * stride < n := by
    intro j hlt
    have h1 : (j + 1) * stride ≤ (n / stride) * stride := Nat.mul_le_mul_right _ hlt
    rw [Nat.succ_mul] at h1
    omega
  obtain ⟨h1, ys, hrun, hy, hlen, hz, hk⟩ :=
    weight_parameters.set_zero_loop_spec h0.blocks.length stride hpos
      ⟨⟨some h0.blocks.length, offset + n⟩, stride⟩ (n / stride) fuel offset h _ hf hcells
      (by omega) (by intro j hj; simpa using hin j hj) (by simp only; rw [← hdiv])
  refine ⟨h1, ?_, ⟨_, hbeg, by simp [Heap.size, hcells], by simp [Heap.size, hy, hlen]⟩, ?_⟩
  · unfold weight_parameters.set_zero
    rw [hbi, hei]
    simp only [hrun, Option.map_some']
  · intro p hp
    have hadd : a._begin.add p = ⟨some h0.blocks.length, p⟩ := by
      rw [hbeg, Ptr.add_small _ _ _ (by omega), Nat.zero_add]
    rw [hadd, Heap.read_block _ hcells, Heap.read_block _ hy]
    refine ⟨⟨_, List.getElem?_eq_getElem (by simpa using hp)⟩, ?_⟩
    by_cases hmod : p % stride = offset
    · rw [if_pos hmod]
      have hp2 : p = offset + (p / stride) * stride := by
        have := Nat.div_add_mod p stride
        rw [Nat.mul_comm] at this
        omega
      have hj : p / stride < n / stride := by
        apply Nat.div_lt_of_lt_mul
        rw [Nat.mul_comm, ← hdiv]
        exact hp
      have := hz (p / stride) hj
      rw [← hp2] at this
      exact this
    · rw [if_neg hmod]
      apply hk
      intro j _ hcon
      apply hmod
      rw [hcon, Nat.add_mul_mod_self_right, Nat.mod_eq_of_lt ho]

/-- Witness of C6: `Construct(4, 1)` holding `10, 20, ..., 80` and `set_zero(1)`. -/
theorem C6_set_zero_witness :
    ∃ h1, (⟨⟨some 0, 0⟩, 7, 1⟩ : weight_parameters).set_zero 5
        (⟨[some [10, 20, 30, 40, 50, 60, 70, 80]]⟩ : Heap Int) 1 =
          some (⟨⟨some 0, 0⟩, 7, 1⟩, h1) ∧
      (∃ b, (⟨⟨some 0, 0⟩, 7, 1⟩ : weight_parameters)._begin = ⟨some b, 0⟩ ∧
        (⟨[some [10, 20, 30, 40, 50, 60, 70, 80]]⟩ : Heap Int).size b =
          some (⟨⟨some 0, 0⟩, 7, 1⟩ : weight_parameters).slot_count ∧
        h1.size b = some (⟨⟨some 0, 0⟩, 7, 1⟩ : weight_parameters).slot_count) ∧
      ∀ p, p < (⟨⟨some 0, 0⟩, 7, 1⟩ : weight_parameters).slot_count →
        (∃ v, (⟨[some [10, 20, 30, 40, 50, 60, 70, 80]]⟩ : Heap Int).read
          ((⟨some 0, 0⟩ : Ptr).add p) = some v) ∧
        h1.read ((⟨some 0, 0⟩ : Ptr).add p) =
          (if p % 2 = 1 then some 0
            else (⟨[some [10, 20, 30, 40, 50, 60, 70, 80]]⟩ : Heap Int).read
              ((⟨some 0, 0⟩ : Ptr).add p)) :=
  C6_set_zero ⟨[]⟩ _ (fun k => ((k : Int) + 1) * 10) 4 1 _ 2 1 (by decide) (by decide)
    (by decide) 5 (by decide)

/-- Counterexample to C6 as stated: `Construct(1, 32)` builds an arena (mask `2 ^ 32 - 1`,
stride_shift 32), but the stride expression `1 << 32` on a 32-bit `int` is undefined:
`begin(offset)` has no value and `set_zero(offset)` has no result, for every offset and
whatever the fuel. -/
theorem C6_counterexample :
    (weight_parameters.construct (⟨[]⟩ : Heap Int) (fun _ => 0) 1 32).map
        (fun r => r.1) = some ⟨⟨some 0, 0⟩, 2 ^ 32 - 1, 32⟩ ∧
      stride_of 32 = none ∧
      ∀ fuel offset : Nat,
        (⟨⟨some 0, 0⟩, 2 ^ 32 - 1, 32⟩ : weight_parameters).begin_offset offset = none ∧
        (weight_parameters.construct (⟨[]⟩ : Heap Int) (fun _ => 0) 1 32).bind
          (fun r => r.1.set_zero fuel r.2 offset) = none := by
  refine ⟨by decide, by decide, ?_⟩
  intro fuel offset
  refine ⟨rfl, ?_⟩
  cases hc : weight_parameters.construct (⟨[]⟩ : Heap Int) (fun _ => 0) 1 32 with
  | none => rfl
  | some r =>
    obtain ⟨a, h⟩ := r
    obtain ⟨n, _, _, _, _, hst, _, _⟩ := weight_parameters.construct_block hc
    have hs : stride_of a._stride_shift = none := by rw [hst]; decide
    simp only [Option.bind, weight_parameters.set_zero, weight_parameters.begin_offset, hs,
      Option.map]

/-! ## Default initialisation: C7 -/

/-- The index-passing `set_default` loop started `k` strides before its end cursor, with a
visitor that leaves the cursor where it is, calls the visitor `k` times, on consecutive
buckets and flat indices one stride apart. -/
theorem weight_parameters.set_default_loop_spec {S : Type}
    (T : S → weights_iterator → Nat → S × weights_iterator) (hT : KeepsCursor T)
    (bs : Option Nat) (st : Nat) (hst : 0 < st) (e : weights_iterator) :
    ∀ (k fuel o i : Nat) (w : S), k < fuel → o + k * st < 2 ^ 62 → i + k * st ≤ 2 ^ 64 →
      e._current = ⟨bs, o + k * st⟩ →
      weight_parameters.set_default_loop T st fuel ⟨⟨bs, o⟩, st⟩ e i w =
        some ((List.range k).foldl
          (fun w1 j => (T w1 ⟨⟨bs, o + j * st⟩, st⟩ (i + j * st)).1) w) := by
  intro k
  induction k with
  | zero =>
    intro fuel o i w hf _ _ he
    obtain ⟨f, rfl⟩ : ∃ f, fuel = f + 1 := ⟨fuel - 1, by omega⟩
    simp [weight_parameters.set_default_loop, weights_iterator.ne, he]
  | succ k ih =>
    intro fuel o i w hf hb hi he
    obtain ⟨f, rfl⟩ : ∃ f, fuel = f + 1 := ⟨fuel - 1, by omega⟩
    have hks : (k + 1) * st = st + k * st := by rw [Nat.succ_mul]; omega
    have hne : (⟨bs, o⟩ : Ptr) ≠ e._current := by
      rw [he]
      intro hcon
      have h2 := congrArg Ptr.off hcon
      simp only at h2
      omega
    have hstep : (⟨bs, o⟩ : Ptr).add st = ⟨bs, o + st⟩ := Ptr.add_small _ o st (by omega)
    have hi2 : (i + st) % 2 ^ 64 + k * st ≤ 2 ^ 64 := by
      rcases Nat.eq_zero_or_pos k with h0 | h0
      · subst h0
        have := Nat.mod_lt (i + st) (show 0 < 2 ^ 64 by norm_num)
        omega
      · have hk1 : st ≤ k * st := Nat.le_mul_of_pos_left st h0
        rw [Nat.mod_eq_of_lt (by omega)]
        omega
    have hrec := ih f (o + st) ((i + st) % 2 ^ 64) (T w ⟨⟨bs, o⟩, st⟩ i).1 (by omega)
      (by omega) hi2 (by rw [he]; congr 1; omega)
    simp only [weight_parameters.set_default_loop, weights_iterator.ne, weights_iterator.incr,
      hne, ne_eq, not_false_eq_true, decide_True, if_true, hT w ⟨⟨bs, o⟩, st⟩ i, hstep, hrec]
    rw [List.range_succ_eq_map, List.foldl_cons, List.foldl_map]
    simp only [Nat.zero_mul, Nat.add_zero]
    congr 1
    apply List.foldl_ext
    intro w1 j hj
    have hjk : j < k := by simpa using hj
    have hk1 : st ≤ k * st := Nat.le_mul_of_pos_left st (by omega)
    rw [Nat.mod_eq_of_lt (by omega)]
    have e1 : o + st + j * st = o + (j + 1) * st := by rw [Nat.succ_mul]; omega
    have e2 : i + st + j * st = i + (j + 1) * st := by rw [Nat.succ_mul]; omega
    rw [e1, e2]

/-- The cursor-only `set_default` loop, with a visitor that leaves the cursor where it is,
calls the visitor on the same cursors. -/
theorem weight_parameters.set_default_loop1_spec {S : Type}
    (T : S → weights_iterator → S × weights_iterator) (hT : KeepsCursor1 T)
    (bs : Option Nat) (st : Nat) (hst : 0 < st) (e : weights_iterator) :
    ∀ (k fuel o : Nat) (w : S), k < fuel → o + k * st < 2 ^ 62 →
      e._current = ⟨bs, o + k * st⟩ →
      weight_parameters.set_default_loop1 T fuel ⟨⟨bs, o⟩, st⟩ e w =
        some ((List.range k).foldl (fun w1 j => (T w1 ⟨⟨bs, o + j * st⟩, st⟩).1) w) := by
  intro k
  induction k with
  | zero =>
    intro fuel o w hf _ he
    obtain ⟨f, rfl⟩ : ∃ f, fuel = f + 1 := ⟨fuel - 1, by omega⟩
    simp [weight_parameters.set_default_loop1, weights_iterator.ne, he]
  | succ k ih =>
    intro fuel o w hf hb he
    obtain ⟨f, rfl⟩ : ∃ f, fuel = f + 1 := ⟨fuel - 1, by omega⟩
    have hks : (k + 1) * st = st + k * st := by rw [Nat.succ_mul]; omega
    have hne : (⟨bs, o⟩ : Ptr) ≠ e._current := by
      rw [he]
      intro hcon
      have h2 := congrArg Ptr.off hcon
      simp only at h2
      omega
    have hstep : (⟨bs, o⟩ : Ptr).add st = ⟨bs, o + st⟩ := Ptr.add_small _ o st (by omega)
    have hrec := ih f (o + st) (T w ⟨⟨bs, o⟩, st⟩).1 (by omega) (by omega)
      (by rw [he]; congr 1; omega)
    simp only [weight_parameters.set_default_loop1, weights_iterator.ne,
      weights_iterator.incr, hne, ne_eq, not_false_eq_true, decide_True, if_true,
      hT w ⟨⟨bs, o⟩, st⟩, hstep, hrec]
    rw [List.range_succ_eq_map, List.foldl_cons, List.foldl_map]
    simp only [Nat.zero_mul, Nat.add_zero]
    congr 1
    apply List.foldl_ext
    intro w1 j _
    have e1 : o + st + j * st = o + (j + 1) * st := by rw [Nat.succ_mul]; omega
    rw [e1]

/-- C7 (amended): for an arena built by `Construct(length, stride_shift)` with
`stride_shift < 32`, so that `stride = 1 << stride_shift` is defined, and for visitors
that leave the cursor they are handed (by reference) where it is, every `set_default`
overload makes exactly one pass: it calls the visitor `(mask + 1) / stride` times
(`mask + 1` the 64-bit value, i.e. the slot count: a whole number of strides, and
`mask + 1` unless the constructor's shift wrapped to 0 slots), once per bucket in bucket
order, on the cursor of the bucket's leading slot, with the flat indices
`0, stride, 2 * stride, ...` (and the stride, for the three-argument overload), and then
stops: the final state is the fold of the visitor over exactly these calls. -/
theorem C7_set_default_coverage (h0 h : Heap W) (fill : Nat → W) (length s : Nat)
    (a : weight_parameters) (stride : Nat)
    (hc : weight_parameters.construct h0 fill length s = some (a, h))
    (hs : stride_of s = some stride) (fuel : Nat) (hf : a.slot_count / stride < fuel)
    (S : Type) (w : S) :
    a.slot_count = (a.slot_count / stride) * stride ∧
      (a.slot_count = a._weight_mask + 1 ∨
        (a.slot_count = 0 ∧ a._weight_mask = 2 ^ 64 - 1)) ∧
      (∀ t : S → weights_iterator → Nat → S × weights_iterator, KeepsCursor t →
        a.set_default fuel t w =
          some ((List.range (a.slot_count / stride)).foldl
            (fun w1 b => (t w1 ⟨a._begin.add (b * stride), stride⟩ (b * stride)).1) w)) ∧
      (∀ T : S → weights_iterator → Nat → S × weights_iterator, KeepsCursor T →
        a.set_default_index fuel T w =
          some ((List.range (a.slot_count / stride)).foldl
            (fun w1 b => (T w1 ⟨a._begin.add (b * stride), stride⟩ (b * stride)).1) w)) ∧
      (∀ T : S → weights_iterator → Nat → Nat → S × weights_iterator, KeepsCursor3 T →
        a.set_default_stride fuel T w =
          some ((List.range (a.slot_count / stride)).foldl
            (fun w1 b =>
              (T w1 ⟨a._begin.add (b * stride), stride⟩ (b * stride) stride).1) w)) ∧
      (∀ T : S → weights_iterator → S × weights_iterator, KeepsCursor1 T →
        a.set_default_cursor fuel T w =
          some ((List.range (a.slot_count / stride)).foldl
            (fun w1 b => (T w1 ⟨a._begin.add (b * stride), stride⟩).1) w)) := by
  obtain ⟨n, hn, hb, hbeg, _, hst, hslot, _⟩ := weight_parameters.construct_block hc
  obtain ⟨hpos, hdiv, hbound⟩ := buckets_spec hn hb hs
  obtain ⟨hbi, _⟩ := weight_parameters.strided_cursors a _ n stride 0 hbeg hslot
    (hst ▸ hs) (by omega)
  have hend := weight_parameters.end_current a _ n hbeg hslot hb
  have hs2 : stride_of a._stride_shift = some stride := hst ▸ hs
  have hcases := weight_parameters.slot_count_cases hc
  rw [hslot] at hf hcases ⊢
  have hadd : ∀ b, b ∈ List.range (n / stride) →
      a._begin.add (b * stride) = ⟨some h0.blocks.length, 0 + b * stride⟩ := by
    intro b hmem
    have hlt : b < n / stride := by simpa using hmem
    have h1 : (b + 1) * stride ≤ (n / stride) * stride := Nat.mul_le_mul_right _ hlt
    rw [Nat.succ_mul] at h1
    rw [hbeg, Ptr.add_small _ _ _ (by omega)]
  have he : a.end_._current = ⟨some h0.blocks.length, 0 + n / stride * stride⟩ := by
    rw [hend, Nat.zero_add, ← hdiv]
  have hloop : ∀ T : S → weights_iterator → Nat → S × weights_iterator, KeepsCursor T →
      weight_parameters.set_default_loop T stride fuel ⟨⟨some h0.blocks.length, 0⟩, stride⟩
        a.end_ 0 w =
      some ((List.range (n / stride)).foldl
        (fun w1 b => (T w1 ⟨a._begin.add (b * stride), stride⟩ (b * stride)).1) w) := by
    intro T hT
    rw [weight_parameters.set_default_loop_spec T hT _ stride hpos a.end_ (n / stride) fuel
      0 0 w hf (by omega) (by omega) he]
    congr 1
    apply List.foldl_ext
    intro w1 b hmem
    simp only [hadd b hmem, Nat.zero_add]
  refine ⟨hdiv, hcases, ?_, ?_, ?_, ?_⟩
  · intro t ht
    unfold weight_parameters.set_default
    rw [hs2, hbi]
    exact hloop t ht
  · intro T hT
    unfold weight_parameters.set_default_index
    rw [hs2, hbi]
    exact hloop T hT
  · intro T hT
    unfold weight_parameters.set_default_stride
    rw [hs2, hbi]
    exact hloop (fun s1 it i => T s1 it i stride) (fun w1 it i => hT w1 it i stride)
  · intro T hT
    unfold weight_parameters.set_default_cursor
    rw [hbi]
    simp only
    rw [weight_parameters.set_default_loop1_spec T hT _ stride hpos a.end_ (n / stride) fuel
      0 w hf (by omega) he]
    congr 1
    apply List.foldl_ext
    intro w1 b hmem
    simp only [hadd b hmem, Nat.zero_add]

/-- Witness of C7: `Construct(4, 1)` (stride 2, 8 slots) with a visitor that records its
arguments and leaves the cursor alone: four calls, on the buckets at positions
`0, 2, 4, 6` with those flat indices. -/
theorem C7_set_default_coverage_witness :
    (⟨⟨some 0, 0⟩, 7, 1⟩ : weight_parameters).set_default 5
        (fun (l : List (weights_iterator × Nat)) it i => (l ++ [(it, i)], it)) [] =
      some [(⟨⟨some 0, 0⟩, 2⟩, 0), (⟨⟨some 0, 2⟩, 2⟩, 2), (⟨⟨some 0, 4⟩, 2⟩, 4),
        (⟨⟨some 0, 6⟩, 2⟩, 6)] :=
  ((C7_set_default_coverage ⟨[]⟩ ⟨[some [0, 0, 0, 0, 0, 0, 0, 0]]⟩ (fun _ => (0 : Int)) 4 1
    ⟨⟨some 0, 0⟩, 7, 1⟩ 2 (by decide) (by decide) 5 (by decide)
    (List (weights_iterator × Nat)) []).2.2.1
    (fun (l : List (weights_iterator × Nat)) it i => (l ++ [(it, i)], it))
    (fun _ _ _ => rfl)).trans (by decide)

/-- Counterexample to C7 as stated, in two parts.  (1) `Construct(1, 32)` builds an arena
(mask `2 ^ 32 - 1`, stride_shift 32), but the stride expression `1 << 32` on a 32-bit
`int` is undefined, so no `set_default` overload has a result, whatever the visitor and
the fuel.  (2) On `Construct(4, 1)` (stride 2, 8 slots, 4 buckets) the visitor that
records its arguments and advances the cursor it was handed by one bucket is called
twice, not four times: on position 0 with index 0 and on position 4 with index 2. -/
theorem C7_counterexample :
    ((weight_parameters.construct (⟨[]⟩ : Heap Int) (fun _ => 0) 1 32).map
        (fun r => r.1) = some ⟨⟨some 0, 0⟩, 2 ^ 32 - 1, 32⟩ ∧
      stride_of 32 = none ∧
      ∀ (S : Type) (fuel : Nat) (w : S),
        (∀ t : S → weights_iterator → Nat → S × weights_iterator,
          (weight_parameters.construct (⟨[]⟩ : Heap Int) (fun _ => 0) 1 32).bind
            (fun r => r.1.set_default fuel t w) = none) ∧
        (∀ T : S → weights_iterator → Nat → S × weights_iterator,
          (weight_parameters.construct (⟨[]⟩ : Heap Int) (fun _ => 0) 1 32).bind
            (fun r => r.1.set_default_index fuel T w) = none) ∧
        (∀ T : S → weights_iterator → Nat → Nat → S × weights_iterator,
          (weight_parameters.construct (⟨[]⟩ : Heap Int) (fun _ => 0) 1 32).bind
            (fun r => r.1.set_default_stride fuel T w) = none) ∧
        (∀ T : S → weights_iterator → S × weights_iterator,
          (weight_parameters.construct (⟨[]⟩ : Heap Int) (fun _ => 0) 1 32).bind
            (fun r => r.1.set_default_cursor fuel T w) = none)) ∧
      (weight_parameters.construct (⟨[]⟩ : Heap Int) (fun _ => 0) 4 1 =
          some (⟨⟨some 0, 0⟩, 7, 1⟩, ⟨[some [0, 0, 0, 0, 0, 0, 0, 0]]⟩) ∧
        stride_of 1 = some 2 ∧
        ((⟨⟨some 0, 0⟩, 7, 1⟩ : weight_parameters)._weight_mask + 1) / 2 = 4 ∧
        ∀ fuel, 2 < fuel →
          (⟨⟨some 0, 0⟩, 7, 1⟩ : weight_parameters).set_default fuel
              (fun (l : List (weights_iterator × Nat)) it i => (l ++ [(it, i)], it.incr))
              [] =
            some [(⟨⟨some 0, 0⟩, 2⟩, 0), (⟨⟨some 0, 4⟩, 2⟩, 2)]) := by
  refine ⟨⟨by decide, by decide, ?_⟩, by decide, by decide, by decide, ?_⟩
  · intro S fuel w
    cases hc : weight_parameters.construct (⟨[]⟩ : Heap Int) (fun _ => 0) 1 32 with
    | none => exact ⟨fun _ => rfl, fun _ => rfl, fun _ => rfl, fun _ => rfl⟩
    | some r =>
      obtain ⟨a, h⟩ := r
      obtain ⟨n, _, _, _, _, hst, _, _⟩ := weight_parameters.construct_block hc
      have hs : stride_of a._stride_shift = none := by rw [hst]; decide
      refine ⟨fun t => ?_, fun T => ?_, fun T => ?_, fun T => ?_⟩
      · simp only [Option.bind, weight_parameters.set_default, hs]
      · simp only [Option.bind, weight_parameters.set_default_index, hs]
      · simp only [Option.bind, weight_parameters.set_default_stride, hs]
      · simp only [Option.bind, weight_parameters.set_default_cursor,
          weight_parameters.begin_offset, hs, Option.map]
  · intro fuel hf
    obtain ⟨k, rfl⟩ : ∃ k, fuel = k + 3 := ⟨fuel - 3, by omega⟩
    rfl

/-! ## Promotion to shared memory: C8 -/

/-- Promoting an arena whose storage is the whole live block `b`, with a `length` whose
shifted value is the slot count: the mapping receives the contents, the old block is
released and every other block is kept. -/
theorem weight_parameters.share_spec [Zero W] (a : weight_parameters) (h : Heap W)
    (b length : Nat) (xs : List W)
    (hbeg : a._begin = ⟨some b, 0⟩) (hx : h.cells b = some xs)
    (hn : shl64 length a._stride_shift = some xs.length) (hb : xs.length < 2 ^ 62) :
    ∃ h3, a.share h true length =
        some (⟨⟨some h.blocks.length, 0⟩, a._weight_mask, a._stride_shift⟩, h3) ∧
      h3.cells h.blocks.length = some xs ∧ h3.cells b = none ∧
      ∀ c, c ≠ b → c ≠ h.blocks.length → h3.cells c = h.cells c := by
  have hbl := Heap.cells_lt hx
  have hbytes : (xs.length * sizeof_float) % 2 ^ 64 = xs.length * 4 := by
    unfold sizeof_float
    omega
  have hcount : xs.length * 4 / sizeof_float = xs.length := by
    unfold sizeof_float
    omega
  have hne : (⟨some b, 0⟩ : Ptr) ≠ Ptr.nullptr := by
    intro hcon
    cases hcon
  -- the heap after `mmap`
  have hm1 : (Heap.mk (h.blocks ++ [some (List.replicate xs.length (0 : W))])).cells b =
      some xs := by
    rw [Heap.cells_append_old _ _ _ hbl]
    exact hx
  have hm2 := Heap.cells_append_last h.blocks (List.replicate xs.length (0 : W))
  -- the heap after `memcpy`
  obtain ⟨h2, hcpy, hc1, hc2, hc3⟩ : ∃ h2 : Heap W,
      memcpy (Heap.mk (h.blocks ++ [some (List.replicate xs.length (0 : W))]))
        ⟨some h.blocks.length, 0⟩ ⟨some b, 0⟩ (xs.length * 4) = some h2 ∧
      h2.cells b = some xs ∧ h2.cells h.blocks.length = some xs ∧
      ∀ c, c ≠ h.blocks.length → h2.cells c = (Heap.mk (h.blocks ++
        [some (List.replicate xs.length (0 : W))])).cells c := by
    unfold memcpy
    simp only [hcount]
    by_cases h0 : xs.length = 0
    · refine ⟨_, by rw [if_pos h0], hm1, ?_, fun _ _ => rfl⟩
      rw [hm2, h0]
      have : xs = [] := List.length_eq_zero.mp h0
      simp [this]
    · rw [if_neg h0]
      simp only [hm1, hm2, List.length_replicate, Nat.zero_add, le_refl, and_self, if_true]
      refine ⟨_, rfl, ?_, ?_, ?_⟩
      · rw [Heap.cells_set_other _ _ _ _ (by omega)]
        exact hm1
      · rw [Heap.cells_set_same _ _ _ (by simp)]
        simp
      · intro c hc
        exact Heap.cells_set_other _ _ _ _ hc
  refine ⟨Heap.mk (h2.blocks.set b none), ?_, ?_, ?_, ?_⟩
  · unfold weight_parameters.share
    simp only [hn, hbytes, mmap, if_true, hcount, hbeg]
    rw [hcpy]
    simp only [free, hne, if_false, hc1, Option.isSome_some, and_self, if_true]
  · rw [Heap.cells_set_other _ _ _ _ (by omega)]
    exact hc2
  · exact Heap.cells_set_same _ _ _ (Heap.cells_lt hc1)
  · intro c hcb hcl
    rw [Heap.cells_set_other _ _ _ _ hcb, hc3 c hcl]
    unfold Heap.cells
    by_cases hlt : c < h.blocks.length
    · rw [List.getElem?_append_left hlt]
    · rw [List.getElem?_eq_none (by simp; omega), List.getElem?_eq_none (by omega)]

/-- Every `arena[i]` of an arena with a non-zero slot count reads a value. -/
theorem weight_parameters.get_some {h0 h : Heap W} {fill : Nat → W} {length s : Nat}
    {a : weight_parameters}
    (hc : weight_parameters.construct h0 fill length s = some (a, h))
    (hn : shl64 length s ≠ some 0) (i : Nat) : ∃ v, a.get h i = some v := by
  obtain ⟨n, hpos, hb, _, hbeg, hmask, _, hcells⟩ := weight_parameters.construct_nonempty hc hn
  have := @Nat.and_le_right i a._weight_mask
  unfold weight_parameters.get
  rw [weight_parameters.index_eq a _ hbeg (by omega) i, Heap.read_block _ hcells]
  exact ⟨_, List.getElem?_eq_getElem (by simp; omega)⟩

/-- C8: for an arena built by `Construct(length, stride_shift)` whose stride_shift has not
been changed, and any contents, `promote_to_shared(length)` with the same length and a
created mapping completes; afterwards `mask()` and `stride_shift()` return what they
returned before and `arena[i]` reads the same value as before for every index `i`. -/
theorem C8_promotion_preserves [Zero W] (h0 h : Heap W) (fill : Nat → W) (length s : Nat)
    (a : weight_parameters)
    (hc : weight_parameters.construct h0 fill length s = some (a, h)) :
    ∃ a1 h1, a.share h true length = some (a1, h1) ∧
      a1.mask = a.mask ∧ a1.stride_shift = a.stride_shift ∧
      (∀ i, a1.get h1 i = a.get h i) ∧
      (shl64 length s ≠ some 0 → ∀ i, ∃ v, a1.get h1 i = some v) := by
  obtain ⟨n, hn, hb, hbeg, hmask, hst, _, hcells⟩ := weight_parameters.construct_block hc
  have hlen : ((List.range n).map fill).length = n := by simp
  obtain ⟨h3, hrun, hnew, _, _⟩ := weight_parameters.share_spec a h h0.blocks.length length _
    hbeg hcells (by rw [hst, hlen]; exact hn) (by rw [hlen]; exact hb)
  have hget : ∀ i, (⟨⟨some h.blocks.length, 0⟩, a._weight_mask, a._stride_shift⟩ :
      weight_parameters).get h3 i = a.get h i := by
    intro i
    simp only [weight_parameters.get, weight_parameters.index, hbeg, Ptr.add]
    rw [Heap.read_block _ hnew, Heap.read_block _ hcells]
  refine ⟨_, h3, hrun, rfl, rfl, hget, ?_⟩
  intro hne i
  rw [hget i]
  exact weight_parameters.get_some hc hne i

/-- Witness of C8: `Construct(8, 0)` holding `1, 2, ..., 8`, promoted with length 8:
afterwards `arena[0..7]` reads `1, ..., 8`, the mask is 7 and the stride shift 0. -/
theorem C8_promotion_preserves_witness :
    (∃ a1 h1, (⟨⟨some 0, 0⟩, 7, 0⟩ : weight_parameters).share
        (⟨[some [1, 2, 3, 4, 5, 6, 7, 8]]⟩ : Heap Int) true 8 = some (a1, h1) ∧
      a1.mask = (⟨⟨some 0, 0⟩, 7, 0⟩ : weight_parameters).mask ∧
      a1.stride_shift = (⟨⟨some 0, 0⟩, 7, 0⟩ : weight_parameters).stride_shift ∧
      (∀ i, a1.get h1 i = (⟨⟨some 0, 0⟩, 7, 0⟩ : weight_parameters).get
        (⟨[some [1, 2, 3, 4, 5, 6, 7, 8]]⟩ : Heap Int) i) ∧
      (shl64 8 0 ≠ some 0 → ∀ i, ∃ v, a1.get h1 i = some v)) ∧
      ((⟨⟨some 0, 0⟩, 7, 0⟩ : weight_parameters).share
        (⟨[some [1, 2, 3, 4, 5, 6, 7, 8]]⟩ : Heap Int) true 8).map
          (fun r => (r.1.mask, r.1.stride_shift, (List.range 8).map (fun i => r.1.get r.2 i))) =
        some (7, 0, [some 1, some 2, some 3, some 4, some 5, some 6, some 7, some 8]) :=
  ⟨C8_promotion_preserves ⟨[]⟩ _ (fun k => (k : Int) + 1) 8 0 _ (by decide), by decide⟩

/-! ## The size invariant: C9 -/

theorem Heap.write_size {h h1 : Heap W} {p : Ptr} {v : W} (hw : h.write p v = some h1) (c : Nat) :
    h1.size c = h.size c := by
  obtain ⟨b, xs, _, hx, _, rfl⟩ := Heap.write_spec hw
  unfold Heap.size
  by_cases hc : c = b
  · subst hc
    rw [Heap.cells_set_same _ _ _ (Heap.cells_lt hx), hx]
    simp
  · rw [Heap.cells_set_other _ _ _ _ hc]

theorem weight_parameters.set_zero_loop_size [Zero W] :
    ∀ (fuel : Nat) (it e : weights_iterator) (h h1 : Heap W),
      weight_parameters.set_zero_loop fuel it e h = some h1 → ∀ c, h1.size c = h.size c := by
  intro fuel
  induction fuel with
  | zero =>
    intro it e h h1 hr
    simp [weight_parameters.set_zero_loop] at hr
  | succ f ih =>
    intro it e h h1 hr c
    unfold weight_parameters.set_zero_loop at hr
    by_cases hne : it.ne e = true
    · rw [if_pos hne] at hr
      cases hw : h.write it.deref 0 with
      | none => simp [hw] at hr
      | some h2 =>
        simp only [hw] at hr
        rw [ih _ _ _ _ hr c, Heap.write_size hw c]
    · rw [if_neg hne] at hr
      cases hr
      rfl

theorem weight_parameters.set_default_loop_keeps {S : Type} (P : S → Prop)
    (T : S → weights_iterator → Nat → S × weights_iterator)
    (hT : ∀ w it i, P w → P (T w it i).1) (stride : Nat) :
    ∀ (fuel : Nat) (it e : weights_iterator) (i : Nat) (w w1 : S),
      weight_parameters.set_default_loop T stride fuel it e i w = some w1 → P w → P w1 := by
  intro fuel
  induction fuel with
  | zero =>
    intro it e i w w1 hr
    simp [weight_parameters.set_default_loop] at hr
  | succ f ih =>
    intro it e i w w1 hr hP
    unfold weight_parameters.set_default_loop at hr
    by_cases hne : it.ne e = true
    · rw [if_pos hne] at hr
      exact ih _ _ _ _ _ hr (hT _ _ _ hP)
    · rw [if_neg hne] at hr
      cases hr
      exact hP

theorem weight_parameters.set_default_loop1_keeps {S : Type} (P : S → Prop)
    (T : S → weights_iterator → S × weights_iterator) (hT : ∀ w it, P w → P (T w it).1) :
    ∀ (fuel : Nat) (it e : weights_iterator) (w w1 : S),
      weight_parameters.set_default_loop1 T fuel it e w = some w1 → P w → P w1 := by
  intro fuel
  induction fuel with
  | zero =>
    intro it e w w1 hr
    simp [weight_parameters.set_default_loop1] at hr
  | succ f ih =>
    intro it e w w1 hr hP
    unfold weight_parameters.set_default_loop1 at hr
    by_cases hne : it.ne e = true
    · rw [if_pos hne] at hr
      exact ih _ _ _ _ hr (hT _ _ hP)
    · rw [if_neg hne] at hr
      cases hr
      exact hP

theorem SizeInvariant.of_sizes {a : weight_parameters} {h h1 : Heap W}
    (hi : SizeInvariant a h) (hs : ∀ c, h1.size c = h.size c) : SizeInvariant a h1 := by
  obtain ⟨b, hb, hp, hsz⟩ := hi
  exact ⟨b, hb, hp, by rw [hs b]; exact hsz⟩

/-- A promotion whose mapping was not created has no result when there is something to
copy. -/
theorem weight_parameters.share_failed [Zero W] (a : weight_parameters) (h : Heap W)
    (length n : Nat) (hn : shl64 length a._stride_shift = some n) (h0 : 0 < n)
    (hb : n < 2 ^ 62) : a.share h false length = none := by
  have hbytes : (n * sizeof_float) % 2 ^ 64 / sizeof_float = n := by
    unfold sizeof_float
    omega
  unfold weight_parameters.share
  simp only [hn, mmap, Bool.false_eq_true, if_false]
  unfold memcpy
  simp only [hbytes]
  rw [if_neg (by omega)]
  simp [Ptr.MAP_FAILED]

/-- Every admissible sequence of operations keeps the size invariant and the mask. -/
theorem Op.run_invariant [Zero W] (length s n M fuel : Nat)
    (hn : shl64 length s = some n) (hM : M + 1 = n) (hb : n < 2 ^ 62) :
    ∀ (ops : List (Op W)) (cur : Nat) (a : weight_parameters) (h : Heap W)
      (a1 : weight_parameters) (h1 : Heap W),
      SizeInvariant a h → a._weight_mask = M → a._stride_shift = cur →
      Admissible length s cur ops → Op.run fuel ops (a, h) = some (a1, h1) →
      SizeInvariant a1 h1 ∧ a1._weight_mask = M := by
  intro ops
  induction ops with
  | nil =>
    intro cur a h a1 h1 hi hm _ _ hr
    simp only [Op.run, Option.some.injEq, Prod.mk.injEq] at hr
    obtain ⟨rfl, rfl⟩ := hr
    exact ⟨hi, hm⟩
  | cons op ops ih =>
    intro cur a h a1 h1 hi hm hcur hadm hr
    unfold Op.run at hr
    cases hap : op.apply fuel (a, h) with
    | none => simp [hap] at hr
    | some st =>
      obtain ⟨a2, h2⟩ := st
      simp only [hap] at hr
      cases op with
      | assign i v =>
        simp only [Op.apply, weight_parameters.assign] at hap
        cases hw : h.write (a.index i) v with
        | none => simp [hw] at hap
        | some h3 =>
          simp only [hw, Option.map_some', Option.some.injEq, Prod.mk.injEq] at hap
          obtain ⟨rfl, rfl⟩ := hap
          exact ih cur _ _ _ _ (hi.of_sizes (Heap.write_size hw)) hm hcur hadm hr
      | set_default_cursor T =>
        obtain ⟨hk, hadm2⟩ := hadm
        simp only [Op.apply, weight_parameters.set_default_cursor] at hap
        cases hbo : a.begin_offset 0 with
        | none => simp [hbo] at hap
        | some it =>
          simp only [hbo] at hap
          cases hl : weight_parameters.set_default_loop1 T fuel it a.end_ h with
          | none => simp [hl] at hap
          | some h3 =>
            simp only [hl, Option.map_some', Option.some.injEq, Prod.mk.injEq] at hap
            obtain ⟨rfl, rfl⟩ := hap
            have hsz := weight_parameters.set_default_loop1_keeps
              (fun hh : Heap W => ∀ c, hh.size c = h.size c) T
              (fun w it1 hw c => by rw [hk it1 w c]; exact hw c) fuel it a.end_ h _ hl
              (fun _ => rfl)
            exact ih cur _ _ _ _ (hi.of_sizes hsz) hm hcur hadm2 hr
      | set_default_index T =>
        obtain ⟨hk, hadm2⟩ := hadm
        simp only [Op.apply, weight_parameters.set_default_index] at hap
        cases hso : stride_of a._stride_shift with
        | none => simp [hso] at hap
        | some stride =>
          simp only [hso] at hap
          cases hbo : a.begin_offset 0 with
          | none => simp [hbo] at hap
          | some it =>
            simp only [hbo] at hap
            cases hl : weight_parameters.set_default_loop T stride fuel it a.end_ 0 h with
            | none => simp [hl] at hap
            | some h3 =>
              simp only [hl, Option.map_some', Option.some.injEq, Prod.mk.injEq] at hap
              obtain ⟨rfl, rfl⟩ := hap
              have hsz := weight_parameters.set_default_loop_keeps
                (fun hh : Heap W => ∀ c, hh.size c = h.size c) T
                (fun w it1 i hw c => by rw [hk it1 i w c]; exact hw c) stride fuel it a.end_ 0 h
                _ hl (fun _ => rfl)
              exact ih cur _ _ _ _ (hi.of_sizes hsz) hm hcur hadm2 hr
      | set_default_stride T =>
        obtain ⟨hk, hadm2⟩ := hadm
        simp only [Op.apply, weight_parameters.set_default_stride] at hap
        cases hso : stride_of a._stride_shift with
        | none => simp [hso] at hap
        | some stride =>
          simp only [hso] at hap
          cases hbo : a.begin_offset 0 with
          | none => simp [hbo] at hap
          | some it =>
            simp only [hbo] at hap
            cases hl : weight_parameters.set_default_loop (fun s1 it1 i => T s1 it1 i stride)
                stride fuel it a.end_ 0 h with
            | none => simp [hl] at hap
            | some h3 =>
              simp only [hl, Option.map_some', Option.some.injEq, Prod.mk.injEq] at hap
              obtain ⟨rfl, rfl⟩ := hap
              have hsz := weight_parameters.set_default_loop_keeps
                (fun hh : Heap W => ∀ c, hh.size c = h.size c)
                (fun s1 it1 i => T s1 it1 i stride)
                (fun w it1 i hw c => by rw [hk it1 i stride w c]; exact hw c) stride fuel it
                a.end_ 0 h _ hl (fun _ => rfl)
              exact ih cur _ _ _ _ (hi.of_sizes hsz) hm hcur hadm2 hr
      | set_default t =>
        obtain ⟨hk, hadm2⟩ := hadm
        simp only [Op.apply, weight_parameters.set_default] at hap
        cases hso : stride_of a._stride_shift with
        | none => simp [hso] at hap
        | some stride =>
          simp only [hso] at hap
          cases hbo : a.begin_offset 0 with
          | none => simp [hbo] at hap
          | some it =>
            simp only [hbo] at hap
            cases hl : weight_parameters.set_default_loop t stride fuel it a.end_ 0 h with
            | none => simp [hl] at hap
            | some h3 =>
              simp only [hl, Option.map_some', Option.some.injEq, Prod.mk.injEq] at hap
              obtain ⟨rfl, rfl⟩ := hap
              have hsz := weight_parameters.set_default_loop_keeps
                (fun hh : Heap W => ∀ c, hh.size c = h.size c) t
                (fun w it1 i hw c => by rw [hk it1 i w c]; exact hw c) stride fuel it a.end_ 0 h
                _ hl (fun _ => rfl)
              exact ih cur _ _ _ _ (hi.of_sizes hsz) hm hcur hadm2 hr
      | set_zero offset =>
        simp only [Op.apply, weight_parameters.set_zero] at hap
        cases hbo : a.begin_offset offset with
        | none => simp [hbo] at hap
        | some it =>
          cases heo : a.end_offset offset with
          | none => simp [hbo, heo] at hap
          | some e =>
            simp only [hbo, heo] at hap
            cases hl : weight_parameters.set_zero_loop fuel it e h with
            | none => simp [hl] at hap
            | some h3 =>
              simp only [hl, Option.map_some', Option.some.injEq, Prod.mk.injEq] at hap
              obtain ⟨rfl, rfl⟩ := hap
              exact ih cur _ _ _ _
                (hi.of_sizes (weight_parameters.set_zero_loop_size fuel it e h _ hl)) hm hcur
                hadm hr
      | stride_shift new_value =>
        simp only [Op.apply, Option.some.injEq, Prod.mk.injEq] at hap
        obtain ⟨rfl, rfl⟩ := hap
        exact ih new_value (a.set_stride_shift new_value) h a1 h1 hi hm rfl hadm hr
      | share created l =>
        obtain ⟨rfl, rfl, hadm2⟩ := hadm
        simp only [Op.apply] at hap
        obtain ⟨b, hbeg, hp, hsz⟩ := hi
        have hn2 : shl64 l a._stride_shift = some (a._weight_mask + 1) := by
          rw [hcur, hm, hM]
          exact hn
        cases created with
        | false =>
          rw [weight_parameters.share_failed a h l _ hn2 (Nat.succ_pos _) (by omega)] at hap
          cases hap
        | true =>
          unfold Heap.size at hsz
          cases hx : h.cells b with
          | none => simp [hx] at hsz
          | some xs =>
            simp only [hx, Option.map_some', Option.some.injEq] at hsz
            obtain ⟨h3, hrun, hnew, _, _⟩ := weight_parameters.share_spec a h b l xs hbeg hx
              (by rw [hsz]; exact hn2) (by omega)
            rw [hrun] at hap
            simp only [Option.some.injEq, Prod.mk.injEq] at hap
            obtain ⟨rfl, rfl⟩ := hap
            refine ih _ ⟨⟨some h.blocks.length, 0⟩, a._weight_mask, a._stride_shift⟩ h3 a1 h1
              ⟨h.blocks.length, rfl, hp, ?_⟩ hm hcur hadm2 hr
            simp [Heap.size, hnew, hsz]

/-- C9 (amended): `Construct(length, stride_shift)` with `length` a power of two and a
slot count `length << stride_shift` that is not 0 in 64-bit arithmetic establishes
`mask = (length << stride_shift) - 1` with `mask + 1` a power of two equal to the number
of slots of storage; the invariant (and the mask) is kept by every sequence, in any order,
of writes through `arena[i]`, `set_default` with visitors that only store weights,
`set_zero(offset)`, `stride_shift(new_value)` and `promote_to_shared` called with the
construction length while stride_shift has its construction value. -/
theorem C9_size_invariant [Zero W] (h0 h : Heap W) (fill : Nat → W) (length s : Nat)
    (a : weight_parameters)
    (hc : weight_parameters.construct h0 fill length s = some (a, h))
    (hpow : ∃ e, length = 2 ^ e) (hn : shl64 length s ≠ some 0) :
    (∃ n, shl64 length s = some n ∧ a._weight_mask = dec64 n) ∧ SizeInvariant a h ∧
      ∀ (fuel : Nat) (ops : List (Op W)) (a1 : weight_parameters) (h1 : Heap W),
        Admissible length s s ops → Op.run fuel ops (a, h) = some (a1, h1) →
        SizeInvariant a1 h1 ∧ a1._weight_mask = a._weight_mask := by
  obtain ⟨n, hpos, hb, hsh, hbeg, hmask, hst, hcells⟩ :=
    weight_parameters.construct_nonempty hc hn
  have hinv : SizeInvariant a h := by
    obtain ⟨e, rfl⟩ := hpow
    obtain ⟨m, _, hm⟩ := mask_pow_two hsh
    have h1 : 1 ≤ 2 ^ m := Nat.one_le_two_pow
    refine ⟨_, hbeg, ⟨m, ?_⟩, ?_⟩
    · have hd := dec64_pos hpos (show n < 2 ^ 64 by omega)
      omega
    · simp [Heap.size, hcells, hmask]
  refine ⟨⟨n, hsh, ?_⟩, hinv, ?_⟩
  · rw [dec64_pos hpos (by omega)]
    omega
  · intro fuel ops a1 h1 hadm hrun
    exact Op.run_invariant length s n a._weight_mask fuel hsh hmask hb ops s a h a1 h1 hinv rfl
      hst hadm hrun

/-- Witness of C9: after `Construct(4, 1)`, the sequence `arena[5] = 99`, `set_zero(1)`,
`set_default` with a visitor storing `1`, `stride_shift(0)`, `stride_shift(1)`,
`promote_to_shared(4)` ends in a state satisfying the invariant, with mask 7. -/
theorem C9_size_invariant_witness :
    Op.run 5 [Op.assign 5 99, Op.set_zero 1,
        Op.set_default (fun h it _ => ((h.write it.deref 1).getD h, it)),
        Op.stride_shift 0, Op.stride_shift 1, Op.share true 4]
        ((⟨⟨some 0, 0⟩, 7, 1⟩ : weight_parameters),
          (⟨[some [10, 20, 30, 40, 50, 60, 70, 80]]⟩ : Heap Int)) =
        some (⟨⟨some 1, 0⟩, 7, 1⟩, ⟨[none, some [1, 0, 1, 0, 1, 0, 1, 0]]⟩) ∧
      SizeInvariant (⟨⟨some 1, 0⟩, 7, 1⟩ : weight_parameters)
        (⟨[none, some [1, 0, 1, 0, 1, 0, 1, 0]]⟩ : Heap Int) ∧
      (⟨⟨some 1, 0⟩, 7, 1⟩ : weight_parameters)._weight_mask = 7 :=
  ⟨by decide,
    (C9_size_invariant ⟨[]⟩ (⟨[some [10, 20, 30, 40, 50, 60, 70, 80]]⟩ : Heap Int)
      (fun k => ((k : Int) + 1) * 10) 4 1 ⟨⟨some 0, 0⟩, 7, 1⟩ (by decide) ⟨2, by decide⟩
      (by decide)).2.2 5
      [Op.assign 5 99, Op.set_zero 1,
        Op.set_default (fun h it _ => ((h.write it.deref 1).getD h, it)),
        Op.stride_shift 0, Op.stride_shift 1, Op.share true 4]
      ⟨⟨some 1, 0⟩, 7, 1⟩ ⟨[none, some [1, 0, 1, 0, 1, 0, 1, 0]]⟩
      ⟨fun it _ h c => by
          cases hw : h.write it.deref 1 with
          | none => simp [hw]
          | some h2 => simpa [hw] using Heap.write_size hw c,
        rfl, rfl, trivial⟩
      (by decide)⟩

/-- Counterexample to C9 as stated, in two parts.  (1) `Construct(2 ^ 63, 1)` has a
power-of-two length, but its slot count wraps to 0 while `mask + 1 = 2 ^ 64`: the
invariant is not established.  (2) After `Construct(4, 1)` (8 slots, mask 7) the sequence
`stride_shift(0)`, `promote_to_shared(4)` installs a storage of 4 slots while the mask
stays 7: the invariant is not preserved. -/
theorem C9_counterexample :
    (weight_parameters.construct (⟨[]⟩ : Heap Int) (fun _ => 0) (2 ^ 63) 1 =
        some (⟨⟨some 0, 0⟩, 2 ^ 64 - 1, 1⟩, ⟨[some []]⟩) ∧
      ¬ SizeInvariant (⟨⟨some 0, 0⟩, 2 ^ 64 - 1, 1⟩ : weight_parameters)
        (⟨[some []]⟩ : Heap Int)) ∧
    (weight_parameters.construct (⟨[]⟩ : Heap Int) (fun _ => 0) 4 1 =
        some (⟨⟨some 0, 0⟩, 7, 1⟩, ⟨[some [0, 0, 0, 0, 0, 0, 0, 0]]⟩) ∧
      Op.run 5 [Op.stride_shift 0, Op.share true 4]
        ((⟨⟨some 0, 0⟩, 7, 1⟩ : weight_parameters),
          (⟨[some [0, 0, 0, 0, 0, 0, 0, 0]]⟩ : Heap Int)) =
        some (⟨⟨some 1, 0⟩, 7, 0⟩, ⟨[none, some [0, 0, 0, 0]]⟩) ∧
      ¬ SizeInvariant (⟨⟨some 1, 0⟩, 7, 0⟩ : weight_parameters)
        (⟨[none, some [0, 0, 0, 0]]⟩ : Heap Int)) := by
  refine ⟨⟨by decide, ?_⟩, by decide, by decide, ?_⟩
  · rintro ⟨b, hb, _, hsz⟩
    simp only [Ptr.mk.injEq, Option.some.injEq, and_true] at hb
    subst hb
    revert hsz
    decide
  · rintro ⟨b, hb, _, hsz⟩
    simp only [Ptr.mk.injEq, Option.some.injEq, and_true] at hb
    subst hb
    revert hsz
    decide

/-! ## Failed mapping: C11 -/

/-- C11: evaluation of `share` when the mapping request reports failure.  The code has no
failure branch: `mmap` yields `MAP_FAILED` and `share` goes on to `memcpy` into it, to
`free` the storage and to install it.  For `Construct(4, 0)` and `promote_to_shared(4)`
the copy into `MAP_FAILED` is what ends the operation (a faulting access, not a reported
error); for `promote_to_shared(0)` (a request `mmap` always refuses) nothing is copied,
the storage is released and `MAP_FAILED` is installed as storage. -/
theorem C11_failed_mapping_not_checked :
    (mmap (⟨[some [1, 2, 3, 4]]⟩ : Heap Int) 16 false).1 = Ptr.MAP_FAILED ∧
      memcpy (⟨[some [1, 2, 3, 4]]⟩ : Heap Int) Ptr.MAP_FAILED ⟨some 0, 0⟩ 16 = none ∧
      (⟨⟨some 0, 0⟩, 3, 0⟩ : weight_parameters).share
        (⟨[some [1, 2, 3, 4]]⟩ : Heap Int) false 4 = none ∧
      (⟨⟨some 0, 0⟩, 3, 0⟩ : weight_parameters).share
        (⟨[some [1, 2, 3, 4]]⟩ : Heap Int) false 0 =
          some (⟨Ptr.MAP_FAILED, 3, 0⟩, ⟨[none]⟩) ∧
      (⟨Ptr.MAP_FAILED, 3, 0⟩ : weight_parameters).get (⟨[none]⟩ : Heap Int) 0 = none := by
  decide

/-! ## Cursor stepping: C12 -/

theorem Ptr.add_zero_of_valid (p : Ptr) (hp : p.Valid) : p.add 0 = p := by
  unfold Ptr.Valid at hp
  cases p with
  | mk b o =>
    simp only [Ptr.add, Ptr.mk.injEq, true_and]
    simp only at hp
    omega

theorem Ptr.add_valid (p : Ptr) (k : Nat) : (p.add k).Valid := by
  unfold Ptr.Valid Ptr.add
  exact Nat.mod_lt _ (by norm_num)

/-- The jump `cursor + n` of an outer cursor is `n` increments. -/
theorem weights_iterator.plus_eq_iterate (it : weights_iterator) (hp : it._current.Valid) :
    ∀ n, it.plus n = weights_iterator.incr^[n] it := by
  intro n
  induction n with
  | zero =>
    simp only [weights_iterator.plus, Nat.zero_mul, Nat.zero_mod, Function.iterate_zero, id_eq,
      Ptr.add_zero_of_valid _ hp]
  | succ n ih =>
    rw [Function.iterate_succ_apply', ← ih]
    simp only [weights_iterator.plus, weights_iterator.incr, Ptr.add_mod, Ptr.add_add,
      Nat.succ_mul]

/-- The jump `cursor + n` of an inner cursor is `n` increments. -/
theorem weights_iterator_iterator.inner_plus_eq_iterate (it : weights_iterator_iterator)
    (hp : it._cur.Valid) : ∀ n, it.plus n = weights_iterator_iterator.incr^[n] it := by
  intro n
  induction n with
  | zero =>
    simp only [weights_iterator_iterator.plus, Function.iterate_zero, id_eq,
      Ptr.add_zero_of_valid _ hp]
  | succ n ih =>
    rw [Function.iterate_succ_apply', ← ih]
    simp only [weights_iterator_iterator.plus, weights_iterator_iterator.incr, Ptr.add_add]

/-- C12: cursor stepping.  For an outer cursor at position `p` with stride `s`, `++` moves
it to `p + s` and keeps `s`; `cursor + n` and `cursor += n` are at `p + n * s` and equal
`n` applications of `++`.  For an inner cursor at `p`, `++` moves it to `p + 1`, and
`cursor + n`, `cursor += n` are at `p + n` and equal `n` applications of `++`.  Two cursors
compare equal exactly when their positions are equal, whatever their strides.  Positions
are 64-bit addresses and `p + k` is pointer arithmetic; while `p + n * s` does not wrap it
is literally the offset of `p` plus `n * s`. -/
theorem C12_cursor_stepping (it rhs : weights_iterator)
    (inner irhs : weights_iterator_iterator) (n : Nat)
    (hp : it._current.Valid) (hq : inner._cur.Valid) :
    (it.incr._current = it._current.add it._stride ∧ it.incr._stride = it._stride) ∧
      ((it.plus n)._current = it._current.add (n * it._stride) ∧
        (it.plus n)._stride = it._stride ∧ it.plus_assign n = it.plus n ∧
        it.plus n = weights_iterator.incr^[n] it ∧
        (it._current.off + n * it._stride < 2 ^ 62 →
          (it.plus n)._current = ⟨it._current.base, it._current.off + n * it._stride⟩)) ∧
      (inner.incr._cur = inner._cur.add 1 ∧ (inner.plus n)._cur = inner._cur.add n ∧
        inner.plus_assign n = inner.plus n ∧
        inner.plus n = weights_iterator_iterator.incr^[n] inner ∧
        (inner._cur.off + n < 2 ^ 62 →
          (inner.plus n)._cur = ⟨inner._cur.base, inner._cur.off + n⟩)) ∧
      ((it.eq rhs = true ↔ it._current = rhs._current) ∧
        (it.ne rhs = true ↔ it._current ≠ rhs._current) ∧
        (inner.eq irhs = true ↔ inner._cur = irhs._cur) ∧
        (inner.ne irhs = true ↔ inner._cur ≠ irhs._cur)) := by
  refine ⟨⟨rfl, rfl⟩, ⟨?_, rfl, rfl, weights_iterator.plus_eq_iterate it hp n, ?_⟩,
    ⟨rfl, rfl, rfl, weights_iterator_iterator.inner_plus_eq_iterate inner hq n, ?_⟩, ?_⟩
  · simp only [weights_iterator.plus, Ptr.add_mod]
  · intro hb
    simp only [weights_iterator.plus, Ptr.add_mod]
    exact Ptr.add_small _ _ _ hb
  · intro hb
    exact Ptr.add_small _ _ _ hb
  · simp [weights_iterator.eq, weights_iterator.ne, weights_iterator_iterator.eq,
      weights_iterator_iterator.ne]

/-- Witness of C12: an outer cursor at position 3 of block 0 with stride 2, an inner
cursor at position 3, and `n = 5`. -/
theorem C12_cursor_stepping_witness :
    ((⟨⟨some 0, 3⟩, 2⟩ : weights_iterator).plus 5 =
        weights_iterator.incr^[5] (⟨⟨some 0, 3⟩, 2⟩ : weights_iterator) ∧
      ((⟨⟨some 0, 3⟩, 2⟩ : weights_iterator).plus 5)._current = ⟨some 0, 13⟩ ∧
      ((⟨⟨some 0, 3⟩⟩ : weights_iterator_iterator).plus 5)._cur = ⟨some 0, 8⟩) ∧
      (⟨⟨some 0, 3⟩, 2⟩ : weights_iterator).eq ⟨⟨some 0, 3⟩, 7⟩ = true :=
  ⟨⟨(C12_cursor_stepping ⟨⟨some 0, 3⟩, 2⟩ ⟨⟨some 0, 3⟩, 7⟩ ⟨⟨some 0, 3⟩⟩ ⟨⟨some 0, 3⟩⟩ 5
      (by decide) (by decide)).2.1.2.2.2.1,
    (C12_cursor_stepping ⟨⟨some 0, 3⟩, 2⟩ ⟨⟨some 0, 3⟩, 7⟩ ⟨⟨some 0, 3⟩⟩ ⟨⟨some 0, 3⟩⟩ 5
      (by decide) (by decide)).2.1.2.2.2.2 (by decide),
    (C12_cursor_stepping ⟨⟨some 0, 3⟩, 2⟩ ⟨⟨some 0, 3⟩, 7⟩ ⟨⟨some 0, 3⟩⟩ ⟨⟨some 0, 3⟩⟩ 5
      (by decide) (by decide)).2.2.1.2.2.2.2 (by decide)⟩,
    by decide⟩

/-! ## Within-bucket scan: C13 -/

/-- An inner walk whose end cursor lies `k < 2 ^ 62` slots ahead visits `k` consecutive
slots. -/
theorem weights_iterator_iterator.inner_visit_spec (e : weights_iterator_iterator) :
    ∀ (k fuel : Nat) (q : Ptr), k < fuel → k < 2 ^ 62 → q.Valid → e._cur = q.add k →
      weights_iterator_iterator.visit fuel ⟨q⟩ e =
        some ((List.range k).map (fun j => q.add j)) := by
  intro k
  induction k with
  | zero =>
    intro fuel q hf _ hq he
    obtain ⟨f, rfl⟩ : ∃ f, fuel = f + 1 := ⟨fuel - 1, by omega⟩
    simp [weights_iterator_iterator.visit, weights_iterator_iterator.ne, he,
      Ptr.add_zero_of_valid q hq]
  | succ k ih =>
    intro fuel q hf hk hq he
    obtain ⟨f, rfl⟩ : ∃ f, fuel = f + 1 := ⟨fuel - 1, by omega⟩
    have hne : q ≠ e._cur := by
      rw [he]
      intro hcon
      have h2 := congrArg Ptr.off hcon
      unfold Ptr.Valid at hq
      simp only [Ptr.add] at h2
      omega
    have hrec := ih f (q.add 1) (by omega) (by omega) (Ptr.add_valid q 1)
      (by rw [he, Ptr.add_add, Nat.add_comm])
    simp only [weights_iterator_iterator.visit, weights_iterator_iterator.ne,
      weights_iterator_iterator.incr, weights_iterator_iterator.deref, hne, ne_eq,
      not_false_eq_true, decide_True, if_true, hrec, Option.map_some']
    rw [List.range_succ_eq_map]
    simp only [List.map_cons, List.map_map, Ptr.add_zero_of_valid q hq]
    congr 2
    apply List.map_congr_left
    intro j _
    simp only [Function.comp, Ptr.add_add, Nat.add_comm]

/-- C13 (amended): for an outer cursor at position `p` (a 64-bit address) and every
`n < 2 ^ 62`, advancing the inner cursor `begin()` with `++` until it equals `end(n)`
visits exactly `n` slots, namely `p, p + 1, ..., p + n - 1` in order, starting at the
current bucket's first element; with `n <= stride` every visited slot is one of the
`stride` slots of the current bucket. -/
theorem C13_bucket_scan (it : weights_iterator) (n fuel : Nat)
    (hp : it._current.Valid) (hn : n < 2 ^ 62) (hf : n < fuel) :
    it.begin.deref = it._current ∧
      weights_iterator_iterator.visit fuel it.begin (it.end_ n) =
        some ((List.range n).map (fun j => it._current.add j)) ∧
      ((List.range n).map (fun j => it._current.add j)).length = n ∧
      (n ≤ it._stride →
        ∀ q, q ∈ (List.range n).map (fun j => it._current.add j) →
          ∃ j, j < it._stride ∧ q = it._current.add j) := by
  refine ⟨rfl, ?_, by simp, ?_⟩
  · exact weights_iterator_iterator.inner_visit_spec (it.end_ n) n fuel it._current hf hn hp rfl
  · intro hle q hq
    simp only [List.mem_map, List.mem_range] at hq
    obtain ⟨j, hj, rfl⟩ := hq
    exact ⟨j, by omega, rfl⟩

/-- Witness of C13: the bucket at position 4 of block 0, stride 4, scanned with `n = 3`:
the slots at positions `4, 5, 6`. -/
theorem C13_bucket_scan_witness :
    ((⟨⟨some 0, 4⟩, 4⟩ : weights_iterator).begin.deref = ⟨some 0, 4⟩ ∧
      weights_iterator_iterator.visit 4 (⟨⟨some 0, 4⟩, 4⟩ : weights_iterator).begin
        ((⟨⟨some 0, 4⟩, 4⟩ : weights_iterator).end_ 3) =
        some ((List.range 3).map (fun j => (⟨some 0, 4⟩ : Ptr).add j)) ∧
      ((List.range 3).map (fun j => (⟨some 0, 4⟩ : Ptr).add j)).length = 3 ∧
      (3 ≤ 4 →
        ∀ q, q ∈ (List.range 3).map (fun j => (⟨some 0, 4⟩ : Ptr).add j) →
          ∃ j, j < 4 ∧ q = (⟨some 0, 4⟩ : Ptr).add j)) ∧
      weights_iterator_iterator.visit 4 (⟨⟨some 0, 4⟩, 4⟩ : weights_iterator).begin
        ((⟨⟨some 0, 4⟩, 4⟩ : weights_iterator).end_ 3) =
        some [⟨some 0, 4⟩, ⟨some 0, 5⟩, ⟨some 0, 6⟩] :=
  ⟨C13_bucket_scan ⟨⟨some 0, 4⟩, 4⟩ 3 4 (by decide) (by decide) (by decide), by decide⟩

/-- Counterexample to C13 as stated: with `n = 2 ^ 62` the end cursor `_current + n` is
`2 ^ 64` bytes past the start, i.e. the same 64-bit address, so `begin() == end(n)` and
the scan visits no slot instead of `n`. -/
theorem C13_counterexample :
    (⟨⟨some 0, 4⟩, 4⟩ : weights_iterator).end_ (2 ^ 62) =
        (⟨⟨some 0, 4⟩, 4⟩ : weights_iterator).begin ∧
      weights_iterator_iterator.visit 5 (⟨⟨some 0, 4⟩, 4⟩ : weights_iterator).begin
        ((⟨⟨some 0, 4⟩, 4⟩ : weights_iterator).end_ (2 ^ 62)) = some [] := by
  decide

/-! ## Shallow copies and destruction: C14, C15 -/

/-- C14: a shallow copy is an alias.  After `shallow_copy(input)`, and after copy
construction from `input`, the handle's storage pointer, mask and stride_shift are those
of `input` (which, passed by const reference, is the same value as before), so on every
heap `arena[i]` denotes the same slot for the copy and the original, reads the same
value, and a write through the copy is read back through the original. -/
theorem C14_shallow_copy_alias (a input : weight_parameters) (h : Heap W) :
    ((a.shallow_copy input).first = input.first ∧
        (a.shallow_copy input).mask = input.mask ∧
        (a.shallow_copy input).stride_shift = input.stride_shift) ∧
      ((weight_parameters.copy input).first = input.first ∧
        (weight_parameters.copy input).mask = input.mask ∧
        (weight_parameters.copy input).stride_shift = input.stride_shift) ∧
      (∀ i, (a.shallow_copy input).index i = input.index i ∧
        (weight_parameters.copy input).index i = input.index i ∧
        (a.shallow_copy input).get h i = input.get h i ∧
        (weight_parameters.copy input).get h i = input.get h i) ∧
      (∀ i v c h1, (weight_parameters.copy input).assign h i v = some (c, h1) →
        input.get h1 i = some v ∧ ∀ j, input.get h1 j = c.get h1 j) := by
  refine ⟨⟨rfl, rfl, rfl⟩, ⟨rfl, rfl, rfl⟩, fun i => ⟨rfl, rfl, rfl, rfl⟩, ?_⟩
  intro i v c h1 hw
  have hcopy : weight_parameters.copy input = input := rfl
  rw [hcopy] at hw
  unfold weight_parameters.assign at hw
  cases hwr : h.write (input.index i) v with
  | none => simp [hwr] at hw
  | some h2 =>
    simp only [hwr, Option.map_some', Option.some.injEq, Prod.mk.injEq] at hw
    obtain ⟨rfl, rfl⟩ := hw
    refine ⟨?_, fun j => rfl⟩
    obtain ⟨b, xs, hb, hx, ho, rfl⟩ := Heap.write_spec hwr
    have hidx : input.index i = ⟨some b, (input.index i).off⟩ := by
      have : (input.index i).base = some b := hb
      cases hi : input.index i with
      | mk bb oo =>
        rw [hi] at this
        simp only at this
        rw [this]
    unfold weight_parameters.get
    rw [hidx, Heap.read_write _ _ v hx ho]
    simp

/-- Witness of C14: the copy of the `Construct(4, 0)` handle; `copy[6] = 9` (slot 2) is
read back through the original as `original[2]`. -/
theorem C14_shallow_copy_alias_witness :
    (weight_parameters.copy ⟨⟨some 0, 0⟩, 3, 0⟩).assign
        (⟨[some [1, 2, 3, 4]]⟩ : Heap Int) 6 9 =
        some (⟨⟨some 0, 0⟩, 3, 0⟩, ⟨[some [1, 2, 9, 4]]⟩) ∧
      (⟨⟨some 0, 0⟩, 3, 0⟩ : weight_parameters).get (⟨[some [1, 2, 9, 4]]⟩ : Heap Int) 2 =
        some 9 ∧
      ((⟨⟨some 0, 0⟩, 3, 0⟩ : weight_parameters).get (⟨[some [1, 2, 9, 4]]⟩ : Heap Int) 6 =
          some 9 ∧
        ∀ j, (⟨⟨some 0, 0⟩, 3, 0⟩ : weight_parameters).get
            (⟨[some [1, 2, 9, 4]]⟩ : Heap Int) j =
          (⟨⟨some 0, 0⟩, 3, 0⟩ : weight_parameters).get
            (⟨[some [1, 2, 9, 4]]⟩ : Heap Int) j) :=
  ⟨by decide, by decide,
    (C14_shallow_copy_alias weight_parameters.empty ⟨⟨some 0, 0⟩, 3, 0⟩
      (⟨[some [1, 2, 3, 4]]⟩ : Heap Int)).2.2.2 6 9 ⟨⟨some 0, 0⟩, 3, 0⟩
      ⟨[some [1, 2, 9, 4]]⟩ (by decide)⟩

/-- C15: evaluation of the destructor on a shallow copy.  For the `Construct(4, 0)` arena
and its copy: destroying the copy releases the storage block, the original then still
points at the released block (its reads fault), and destroying the original releases the
same block a second time, which `free` does not allow. -/
theorem C15_copy_destruction_releases :
    weight_parameters.copy ⟨⟨some 0, 0⟩, 3, 0⟩ = ⟨⟨some 0, 0⟩, 3, 0⟩ ∧
      (weight_parameters.copy ⟨⟨some 0, 0⟩, 3, 0⟩).destroy
        (⟨[some [1, 2, 3, 4]]⟩ : Heap Int) = some (⟨Ptr.nullptr, 3, 0⟩, ⟨[none]⟩) ∧
      (⟨⟨some 0, 0⟩, 3, 0⟩ : weight_parameters).get (⟨[none]⟩ : Heap Int) 0 = none ∧
      (⟨⟨some 0, 0⟩, 3, 0⟩ : weight_parameters).destroy (⟨[none]⟩ : Heap Int) = none ∧
      (⟨⟨some 0, 0⟩, 3, 0⟩ : weight_parameters).destroy
        (⟨[some [1, 2, 3, 4]]⟩ : Heap Int) = some (⟨Ptr.nullptr, 3, 0⟩, ⟨[none]⟩) := by
  decide

/-! ## Overloads of `set_default`: C16 -/

theorem foldl_record {S α β : Type} (g : S → β → S) (f : β → α) (xs : List β) (w : S)
    (acc : List α) :
    xs.foldl (fun (r : S × List α) b => (g r.1 b, r.2 ++ [f b])) (w, acc) =
      (xs.foldl g w, acc ++ xs.map f) := by
  induction xs generalizing w acc with
  | nil => simp
  | cons x xs ih => simp [ih]

/-- The two `set_default` loops of a constructed arena, run with visitors that leave the
cursor where it is, as folds over its buckets. -/
theorem weight_parameters.set_default_loops {h0 h : Heap W} {fill : Nat → W} {length s : Nat}
    {a : weight_parameters} {stride : Nat}
    (hc : weight_parameters.construct h0 fill length s = some (a, h))
    (hs : stride_of s = some stride) (fuel : Nat) (hf : a.slot_count / stride < fuel)
    (S : Type) (w : S) :
    stride_of a._stride_shift = some stride ∧
      a.begin_offset 0 = some ⟨a._begin, stride⟩ ∧
      a.slot_count = (a.slot_count / stride) * stride ∧ 0 < stride ∧
      (∀ T : S → weights_iterator → Nat → S × weights_iterator, KeepsCursor T →
        weight_parameters.set_default_loop T stride fuel ⟨a._begin, stride⟩ a.end_ 0 w =
          some ((List.range (a.slot_count / stride)).foldl
            (fun w1 b => (T w1 ⟨a._begin.add (b * stride), stride⟩ (b * stride)).1) w)) ∧
      (∀ T : S → weights_iterator → S × weights_iterator, KeepsCursor1 T →
        weight_parameters.set_default_loop1 T fuel ⟨a._begin, stride⟩ a.end_ w =
          some ((List.range (a.slot_count / stride)).foldl
            (fun w1 b => (T w1 ⟨a._begin.add (b * stride), stride⟩).1) w)) := by
  obtain ⟨n, hn, hb, hbeg, _, hst, hslot, _⟩ := weight_parameters.construct_block hc
  obtain ⟨hpos, hdiv, hbound⟩ := buckets_spec hn hb hs
  obtain ⟨hbi, _⟩ := weight_parameters.strided_cursors a _ n stride 0 hbeg hslot
    (hst ▸ hs) (by omega)
  have hend := weight_parameters.end_current a _ n hbeg hslot hb
  rw [hslot] at hf ⊢
  have hadd : ∀ b, b ∈ List.range (n / stride) →
      a._begin.add (b * stride) = ⟨some h0.blocks.length, 0 + b * stride⟩ := by
    intro b hmem
    have hlt : b < n / stride := by simpa using hmem
    have h1 : (b + 1) * stride ≤ (n / stride) * stride := Nat.mul_le_mul_right _ hlt
    rw [Nat.succ_mul] at h1
    rw [hbeg, Ptr.add_small _ _ _ (by omega)]
  have he : a.end_._current = ⟨some h0.blocks.length, 0 + n / stride * stride⟩ := by
    rw [hend, Nat.zero_add, ← hdiv]
  refine ⟨hst ▸ hs, by rw [hbi, hbeg], hdiv, hpos, ?_, ?_⟩
  · intro T hT
    rw [hbeg, weight_parameters.set_default_loop_spec T hT _ stride hpos a.end_ (n / stride)
      fuel 0 0 w hf (by omega) (by omega) he]
    congr 1
    apply List.foldl_ext
    intro w1 b hmem
    rw [← hbeg]
    simp only [hadd b hmem, Nat.zero_add]
  · intro T hT
    rw [hbeg, weight_parameters.set_default_loop1_spec T hT _ stride hpos a.end_ (n / stride)
      fuel 0 w hf (by omega) he]
    congr 1
    apply List.foldl_ext
    intro w1 b hmem
    rw [← hbeg]
    simp only [hadd b hmem, Nat.zero_add]

/-- C16 (amended): for an arena built by `Construct(length, stride_shift)` with
`stride_shift < 32`, so that `stride = 1 << stride_shift` is defined, all `set_default`
overloads, run with any visitors that leave the cursor they are handed (by reference)
where it is, receive the same sequence of cursors: one per bucket, in bucket order, at the
bucket's leading slot.  In each call the cursor is at storage position `i` for the flat
index `i` passed in the same call, `i` is a multiple of the stride, and the stride
argument of the three-argument overload is `1 << stride_shift`.  The arguments of the
calls are those recorded by the instrumented visitors `record1`, `record2`, `record3`. -/
theorem C16_set_default_overloads (h0 h : Heap W) (fill : Nat → W) (length s : Nat)
    (a : weight_parameters) (stride : Nat)
    (hc : weight_parameters.construct h0 fill length s = some (a, h))
    (hs : stride_of s = some stride) (fuel : Nat) (hf : a.slot_count / stride < fuel)
    (S : Type) (w : S)
    (T1 : S → weights_iterator → S × weights_iterator)
    (T2 T4 : S → weights_iterator → Nat → S × weights_iterator)
    (T3 : S → weights_iterator → Nat → Nat → S × weights_iterator)
    (h1 : KeepsCursor1 T1) (h2 : KeepsCursor T2) (h3 : KeepsCursor3 T3)
    (h4 : KeepsCursor T4) :
    ∃ (w1 w2 w3 w4 : S) (t1 : List weights_iterator) (t2 t4 : List (weights_iterator × Nat))
      (t3 : List (weights_iterator × Nat × Nat)),
      a.set_default_cursor fuel (record1 T1) (w, []) = some (w1, t1) ∧
      a.set_default_index fuel (record2 T2) (w, []) = some (w2, t2) ∧
      a.set_default_stride fuel (record3 T3) (w, []) = some (w3, t3) ∧
      a.set_default fuel (record2 T4) (w, []) = some (w4, t4) ∧
      t2.map (fun c => c.1) = t1 ∧ t3.map (fun c => c.1) = t1 ∧ t4.map (fun c => c.1) = t1 ∧
      t3.map (fun c => (c.1, c.2.1)) = t2 ∧ t4 = t2 ∧
      t1 = (List.range (a.slot_count / stride)).map
        (fun b => (⟨a._begin.add (b * stride), stride⟩ : weights_iterator)) ∧
      (∀ c, c ∈ t2 → c.1._current = a._begin.add c.2 ∧ c.2 % stride = 0 ∧
        c.2 < a.slot_count) ∧
      (∀ c, c ∈ t3 → c.2.2 = stride ∧ stride = 2 ^ a._stride_shift) := by
  obtain ⟨hso, hbo, hdiv, hpos, hloop, hloop1⟩ :=
    weight_parameters.set_default_loops hc hs fuel hf (S × List (weights_iterator × Nat))
      (w, [])
  obtain ⟨_, _, _, _, hloop3, _⟩ :=
    weight_parameters.set_default_loops hc hs fuel hf
      (S × List (weights_iterator × Nat × Nat)) (w, [])
  obtain ⟨_, _, _, _, _, hloopc⟩ :=
    weight_parameters.set_default_loops hc hs fuel hf (S × List weights_iterator) (w, [])
  have hstr := (stride_of_spec hso).2
  have k1 : KeepsCursor1 (record1 T1) := fun r it => h1 r.1 it
  have k2 : KeepsCursor (record2 T2) := fun r it i => h2 r.1 it i
  have k3 : KeepsCursor (fun r it i => record3 T3 r it i stride) :=
    fun r it i => h3 r.1 it i stride
  have k4 : KeepsCursor (record2 T4) := fun r it i => h4 r.1 it i
  refine ⟨(List.range (a.slot_count / stride)).foldl
      (fun s1 b => (T1 s1 ⟨a._begin.add (b * stride), stride⟩).1) w,
    (List.range (a.slot_count / stride)).foldl
      (fun s1 b => (T2 s1 ⟨a._begin.add (b * stride), stride⟩ (b * stride)).1) w,
    (List.range (a.slot_count / stride)).foldl
      (fun s1 b => (T3 s1 ⟨a._begin.add (b * stride), stride⟩ (b * stride) stride).1) w,
    (List.range (a.slot_count / stride)).foldl
      (fun s1 b => (T4 s1 ⟨a._begin.add (b * stride), stride⟩ (b * stride)).1) w,
    (List.range (a.slot_count / stride)).map
      (fun b => (⟨a._begin.add (b * stride), stride⟩ : weights_iterator)),
    (List.range (a.slot_count / stride)).map
      (fun b => ((⟨a._begin.add (b * stride), stride⟩ : weights_iterator), b * stride)),
    (List.range (a.slot_count / stride)).map
      (fun b => ((⟨a._begin.add (b * stride), stride⟩ : weights_iterator), b * stride)),
    (List.range (a.slot_count / stride)).map
      (fun b => ((⟨a._begin.add (b * stride), stride⟩ : weights_iterator), b * stride,
        stride)),
    ?_, ?_, ?_, ?_, ?_, ?_, ?_, ?_, rfl, rfl, ?_, ?_⟩
  · unfold weight_parameters.set_default_cursor
    rw [hbo]
    simp only
    rw [hloopc (record1 T1) k1]
    exact congrArg some (foldl_record
      (fun s1 b => (T1 s1 ⟨a._begin.add (b * stride), stride⟩).1)
      (fun b => (⟨a._begin.add (b * stride), stride⟩ : weights_iterator)) _ w [])
  · unfold weight_parameters.set_default_index
    rw [hso, hbo]
    simp only
    rw [hloop (record2 T2) k2]
    exact congrArg some (foldl_record
      (fun s1 b => (T2 s1 ⟨a._begin.add (b * stride), stride⟩ (b * stride)).1)
      (fun b => ((⟨a._begin.add (b * stride), stride⟩ : weights_iterator), b * stride))
      _ w [])
  · unfold weight_parameters.set_default_stride
    rw [hso, hbo]
    simp only
    rw [hloop3 (fun r it i => record3 T3 r it i stride) k3]
    exact congrArg some (foldl_record
      (fun s1 b => (T3 s1 ⟨a._begin.add (b * stride), stride⟩ (b * stride) stride).1)
      (fun b => ((⟨a._begin.add (b * stride), stride⟩ : weights_iterator), b * stride,
        stride)) _ w [])
  · unfold weight_parameters.set_default
    rw [hso, hbo]
    simp only
    rw [hloop (record2 T4) k4]
    exact congrArg some (foldl_record
      (fun s1 b => (T4 s1 ⟨a._begin.add (b * stride), stride⟩ (b * stride)).1)
      (fun b => ((⟨a._begin.add (b * stride), stride⟩ : weights_iterator), b * stride))
      _ w [])
  · simp [List.map_map, Function.comp]
  · simp [List.map_map, Function.comp]
  · simp [List.map_map, Function.comp]
  · simp [List.map_map, Function.comp]
  · intro c hmem
    simp only [List.mem_map, List.mem_range] at hmem
    obtain ⟨b, hlt, rfl⟩ := hmem
    refine ⟨rfl, Nat.mul_mod_left _ _, ?_⟩
    have h1 : (b + 1) * stride ≤ (a.slot_count / stride) * stride :=
      Nat.mul_le_mul_right _ hlt
    rw [Nat.succ_mul] at h1
    omega
  · intro c hmem
    simp only [List.mem_map, List.mem_range] at hmem
    obtain ⟨b, _, rfl⟩ := hmem
    exact ⟨rfl, hstr⟩

/-- Witness of C16: `Construct(4, 1)` (stride 2, 8 slots) with visitors that count their
calls and leave the cursor alone: the four overloads record the cursors at positions
`0, 2, 4, 6`, with the flat indices `0, 2, 4, 6` and the stride 2. -/
theorem C16_set_default_overloads_witness :
    (∃ (w1 w2 w3 w4 : Nat) (t1 : List weights_iterator)
      (t2 t4 : List (weights_iterator × Nat)) (t3 : List (weights_iterator × Nat × Nat)),
      (⟨⟨some 0, 0⟩, 7, 1⟩ : weight_parameters).set_default_cursor 5
        (record1 (fun k it => (k + 1, it))) (0, []) = some (w1, t1) ∧
      (⟨⟨some 0, 0⟩, 7, 1⟩ : weight_parameters).set_default_index 5
        (record2 (fun k it _ => (k + 1, it))) (0, []) = some (w2, t2) ∧
      (⟨⟨some 0, 0⟩, 7, 1⟩ : weight_parameters).set_default_stride 5
        (record3 (fun k it _ _ => (k + 1, it))) (0, []) = some (w3, t3) ∧
      (⟨⟨some 0, 0⟩, 7, 1⟩ : weight_parameters).set_default 5
        (record2 (fun k it _ => (k + 1, it))) (0, []) = some (w4, t4) ∧
      t2.map (fun c => c.1) = t1 ∧ t3.map (fun c => c.1) = t1 ∧ t4.map (fun c => c.1) = t1 ∧
      t3.map (fun c => (c.1, c.2.1)) = t2 ∧ t4 = t2 ∧
      t1 = (List.range ((⟨⟨some 0, 0⟩, 7, 1⟩ : weight_parameters).slot_count / 2)).map
        (fun b => (⟨(⟨some 0, 0⟩ : Ptr).add (b * 2), 2⟩ : weights_iterator)) ∧
      (∀ c, c ∈ t2 → c.1._current = (⟨some 0, 0⟩ : Ptr).add c.2 ∧ c.2 % 2 = 0 ∧
        c.2 < (⟨⟨some 0, 0⟩, 7, 1⟩ : weight_parameters).slot_count) ∧
      (∀ c, c ∈ t3 → c.2.2 = 2 ∧ 2 = 2 ^ 1)) ∧
      (⟨⟨some 0, 0⟩, 7, 1⟩ : weight_parameters).set_default_stride 5
        (record3 (fun (k : Nat) it _ _ => (k + 1, it))) (0, []) =
        some (4, [(⟨⟨some 0, 0⟩, 2⟩, 0, 2), (⟨⟨some 0, 2⟩, 2⟩, 2, 2),
          (⟨⟨some 0, 4⟩, 2⟩, 4, 2), (⟨⟨some 0, 6⟩, 2⟩, 6, 2)]) :=
  ⟨C16_set_default_overloads ⟨[]⟩ ⟨[some [0, 0, 0, 0, 0, 0, 0, 0]]⟩ (fun _ => (0 : Int)) 4 1
    ⟨⟨some 0, 0⟩, 7, 1⟩ 2 (by decide) (by decide) 5 (by decide) Nat 0
    (fun k it => (k + 1, it)) (fun k it _ => (k + 1, it)) (fun k it _ => (k + 1, it))
    (fun k it _ _ => (k + 1, it)) (fun _ _ => rfl) (fun _ _ _ => rfl)
    (fun _ _ _ _ => rfl) (fun _ _ _ => rfl), by decide⟩

/-- Counterexample to C16 as stated, in two parts.  (1) `Construct(1, 32)` builds an arena
(mask `2 ^ 32 - 1`, stride_shift 32), but `1 << 32` on a 32-bit `int` is undefined:
`begin(0)` has no value, and neither the cursor-only nor the three-argument overload, run
with recording visitors, has a result at any fuel.  (2) On `Construct(4, 1)` (stride 2)
the three-argument overload, run with the recording visitor that advances the cursor it
was handed by one bucket, makes its second call with the cursor at storage position 4
and the flat index 2. -/
theorem C16_counterexample :
    ((weight_parameters.construct (⟨[]⟩ : Heap Int) (fun _ => 0) 1 32).map
        (fun r => r.1) = some ⟨⟨some 0, 0⟩, 2 ^ 32 - 1, 32⟩ ∧
      (⟨⟨some 0, 0⟩, 2 ^ 32 - 1, 32⟩ : weight_parameters).begin_offset 0 = none ∧
      ∀ fuel : Nat,
        (weight_parameters.construct (⟨[]⟩ : Heap Int) (fun _ => 0) 1 32).bind
          (fun r => r.1.set_default_cursor fuel
            (record1 (fun (u : Unit) it => (u, it))) ((), [])) = none ∧
        (weight_parameters.construct (⟨[]⟩ : Heap Int) (fun _ => 0) 1 32).bind
          (fun r => r.1.set_default_stride fuel
            (record3 (fun (u : Unit) it _ _ => (u, it))) ((), [])) = none) ∧
      (weight_parameters.construct (⟨[]⟩ : Heap Int) (fun _ => 0) 4 1 =
          some (⟨⟨some 0, 0⟩, 7, 1⟩, ⟨[some [0, 0, 0, 0, 0, 0, 0, 0]]⟩) ∧
        (∀ fuel, 2 < fuel →
          (⟨⟨some 0, 0⟩, 7, 1⟩ : weight_parameters).set_default_stride fuel
              (record3 (fun (u : Unit) it _ _ => (u, it.incr))) ((), []) =
            some ((), [(⟨⟨some 0, 0⟩, 2⟩, 0, 2), (⟨⟨some 0, 4⟩, 2⟩, 2, 2)])) ∧
        (⟨some 0, 4⟩ : Ptr) ≠
          (⟨⟨some 0, 0⟩, 7, 1⟩ : weight_parameters)._begin.add 2) := by
  refine ⟨⟨by decide, by decide, ?_⟩, by decide, ?_, by decide⟩
  · intro fuel
    cases hc : weight_parameters.construct (⟨[]⟩ : Heap Int) (fun _ => 0) 1 32 with
    | none => exact ⟨rfl, rfl⟩
    | some r =>
      obtain ⟨a, h⟩ := r
      obtain ⟨n, _, _, _, _, hst, _, _⟩ := weight_parameters.construct_block hc
      have hs : stride_of a._stride_shift = none := by rw [hst]; decide
      refine ⟨?_, ?_⟩
      · simp only [Option.bind, weight_parameters.set_default_cursor,
          weight_parameters.begin_offset, hs, Option.map]
      · simp only [Option.bind, weight_parameters.set_default_stride, hs]
  · intro fuel hf
    obtain ⟨k, rfl⟩ : ∃ k, fuel = k + 3 := ⟨fuel - 3, by omega⟩
    rfl

/-! ## Addressability and `not_null`: C17, C18 -/

/-- C17: for an arena built by `Construct(length, stride_shift)` with `length` a power of
two and every position `p <= mask`: `p & mask = p`, so `arena[p]` denotes slot `p`, and
the map `i -> i & mask` is onto the positions `0 .. mask` (and never leaves them); when the
slot count is not 0 the slot is readable. -/
theorem C17_slots_addressable (h0 h : Heap W) (fill : Nat → W) (length s : Nat)
    (a : weight_parameters)
    (hc : weight_parameters.construct h0 fill length s = some (a, h))
    (hpow : ∃ e, length = 2 ^ e) (p : Nat) (hp : p ≤ a._weight_mask) :
    p &&& a._weight_mask = p ∧ a.index p = a._begin.add p ∧
      (∃ i, i &&& a._weight_mask = p) ∧ (∀ i, i &&& a._weight_mask ≤ a._weight_mask) ∧
      (shl64 length s ≠ some 0 →
        ∃ v, a.get h p = some v ∧ h.read (a._begin.add p) = some v) := by
  obtain ⟨e, rfl⟩ := hpow
  obtain ⟨n, hn, _, _, hmask, _, _, _⟩ := weight_parameters.construct_block hc
  obtain ⟨m, _, hm⟩ := mask_pow_two hn
  have hmm : a._weight_mask = 2 ^ m - 1 := by rw [hmask, hm]
  have h1 : 1 ≤ 2 ^ m := Nat.one_le_two_pow
  have key : p &&& a._weight_mask = p := by
    rw [hmm, Nat.and_pow_two_sub_one_eq_mod]
    exact Nat.mod_eq_of_lt (by omega)
  have hidx : a.index p = a._begin.add p := by
    unfold weight_parameters.index
    rw [key]
  refine ⟨key, hidx, ⟨p, key⟩, fun i => Nat.and_le_right, ?_⟩
  intro hne
  obtain ⟨v, hv⟩ := weight_parameters.get_some hc hne p
  refine ⟨v, hv, ?_⟩
  rw [← hidx]
  exact hv

/-- Witness of C17: `Construct(4, 1)` (mask 7) and the position 6. -/
theorem C17_slots_addressable_witness :
    6 &&& (⟨⟨some 0, 0⟩, 7, 1⟩ : weight_parameters)._weight_mask = 6 ∧
      (⟨⟨some 0, 0⟩, 7, 1⟩ : weight_parameters).index 6 = (⟨some 0, 0⟩ : Ptr).add 6 ∧
      (∃ i, i &&& (⟨⟨some 0, 0⟩, 7, 1⟩ : weight_parameters)._weight_mask = 6) ∧
      (∀ i, i &&& (⟨⟨some 0, 0⟩, 7, 1⟩ : weight_parameters)._weight_mask ≤
        (⟨⟨some 0, 0⟩, 7, 1⟩ : weight_parameters)._weight_mask) ∧
      (shl64 4 1 ≠ some 0 →
        ∃ v, (⟨⟨some 0, 0⟩, 7, 1⟩ : weight_parameters).get
            (⟨[some [10, 20, 30, 40, 50, 60, 70, 80]]⟩ : Heap Int) 6 = some v ∧
          (⟨[some [10, 20, 30, 40, 50, 60, 70, 80]]⟩ : Heap Int).read
            ((⟨some 0, 0⟩ : Ptr).add 6) = some v) :=
  C17_slots_addressable ⟨[]⟩ _ (fun k => ((k : Int) + 1) * 10) 4 1 _ (by decide) ⟨2, by decide⟩
    6 (by decide)

/-- C18 (amended): the default-constructed arena has no storage, mask 0 and stride_shift 0,
and `not_null()` is false for it; for an arena built by `Construct(length, stride_shift)`
whose slot count `length << stride_shift` is at least 2, `not_null()` is true; for a slot
count of exactly 1 (`Construct(1, 0)`) the mask is 0 and `not_null()` is false. -/
theorem C18_not_null (h0 h : Heap W) (fill : Nat → W) (length s : Nat)
    (a : weight_parameters)
    (hc : weight_parameters.construct h0 fill length s = some (a, h)) :
    (weight_parameters.empty.first = Ptr.nullptr ∧ weight_parameters.empty.mask = 0 ∧
        weight_parameters.empty.stride_shift = 0 ∧
        weight_parameters.empty.not_null = false) ∧
      (∀ n, shl64 length s = some n → 2 ≤ n → a.not_null = true) ∧
      (shl64 length s = some 1 → a._weight_mask = 0 ∧ a.not_null = false) := by
  obtain ⟨n, hn, _, hbeg, hmask, _, _, _⟩ := weight_parameters.construct_block hc
  refine ⟨⟨rfl, rfl, rfl, by decide⟩, ?_, ?_⟩
  · intro k hk h2
    rw [hn] at hk
    cases hk
    have hd := dec64_pos (show 0 < n by omega) (shl64_lt hn)
    have hne : a._begin ≠ Ptr.nullptr := by
      rw [hbeg]
      intro hcon
      cases hcon
    simp only [weight_parameters.not_null, hne, ne_eq, not_false_eq_true, decide_True,
      Bool.and_true, decide_eq_true_eq]
    omega
  · intro hk
    rw [hn] at hk
    cases hk
    have hm0 : a._weight_mask = 0 := by
      rw [hmask]
      decide
    refine ⟨hm0, ?_⟩
    simp [weight_parameters.not_null, hm0]

/-- Witness of C18: `Construct(4, 1)` has 8 slots and `not_null()` is true. -/
theorem C18_not_null_witness :
    (⟨⟨some 0, 0⟩, 7, 1⟩ : weight_parameters).not_null = true :=
  (C18_not_null ⟨[]⟩ ⟨[some [0, 0, 0, 0, 0, 0, 0, 0]]⟩ (fun _ => (0 : Int)) 4 1
    ⟨⟨some 0, 0⟩, 7, 1⟩ (by decide)).2.1 8 (by decide) (by decide)

/-- Counterexample to C18 as stated: `Construct(1, 0)` has a power-of-two length
`1 >= 1` and a storage of one slot, its mask is `(1 << 0) - 1 = 0`, and `not_null()`,
which requires `_weight_mask > 0`, returns false. -/
theorem C18_counterexample :
    weight_parameters.construct (⟨[]⟩ : Heap Int) (fun _ => 0) 1 0 =
        some (⟨⟨some 0, 0⟩, 0, 0⟩, ⟨[some [0]]⟩) ∧
      (⟨⟨some 0, 0⟩, 0, 0⟩ : weight_parameters).not_null = false ∧
      (⟨⟨some 0, 0⟩, 0, 0⟩ : weight_parameters).get (⟨[some [0]]⟩ : Heap Int) 0 = some 0 := by
  decide

/-! ## Strided loops after a stride change: C19 -/

/-- A power-of-two slot count is a whole number of strides `2 ^ s2 <= mask + 1`, and a
strided end cursor does not wrap. -/
theorem buckets_changed {e s n s2 : Nat} (hn : shl64 (2 ^ e) s = some n) (hb : n < 2 ^ 62)
    (h32 : s2 < 32) (hle : 2 ^ s2 ≤ dec64 n + 1) :
    0 < 2 ^ s2 ∧ n = (n / 2 ^ s2) * 2 ^ s2 ∧ n + 2 ^ s2 ≤ 2 ^ 62 := by
  have hpos : 0 < 2 ^ s2 := by positivity
  have hs2 : 2 ^ s2 < 2 ^ 32 := Nat.pow_lt_pow_right (by norm_num) h32
  rcases Nat.eq_zero_or_pos n with h0 | h0
  · subst h0
    refine ⟨hpos, by simp, ?_⟩
    have : (2 : Nat) ^ 32 ≤ 2 ^ 62 := by norm_num
    omega
  · obtain ⟨m, _, hm⟩ := mask_pow_two hn
    have h1 : 1 ≤ 2 ^ m := Nat.one_le_two_pow
    have hnm : n = 2 ^ m := by
      have := dec64_pos h0 (show n < 2 ^ 64 by omega)
      omega
    have hsm : s2 ≤ m := by
      by_contra hcon
      have : 2 ^ m < 2 ^ s2 := Nat.pow_lt_pow_right (by norm_num) (by omega)
      omega
    have hm62 : m < 62 := by
      by_contra hcon
      have : 2 ^ 62 ≤ 2 ^ m := Nat.pow_le_pow_right (by norm_num) (by omega)
      omega
    have hdvd : 2 ^ s2 ∣ n := hnm ▸ pow_dvd_pow 2 hsm
    refine ⟨hpos, (Nat.div_mul_cancel hdvd).symm, ?_⟩
    have h2 : 2 ^ s2 ≤ 2 ^ m := Nat.pow_le_pow_right (by norm_num) hsm
    have h3 : 2 ^ (m + 1) ≤ 2 ^ 62 := Nat.pow_le_pow_right (by norm_num) (by omega)
    rw [pow_succ] at h3
    omega

/-- C19 (amended): for an arena built by `Construct(length, stride_shift)` with `length` a
power of two, after `stride_shift(s2)` with `s2 < 32` (so that `1 << s2` is defined),
`2 ^ s2 <= mask + 1` and `offset < 2 ^ s2`: the loop of `set_zero(offset)`, i.e.
`begin(offset)` advanced by `++` until it equals `end(offset)`, terminates after exactly
`(mask + 1) / 2 ^ s2` steps (`mask + 1` the 64-bit value, i.e. the slot count), every slot
it writes lies inside storage, and `set_zero(offset)` completes. -/
theorem C19_strided_loop_total [Zero W] (h0 h : Heap W) (fill : Nat → W) (length s : Nat)
    (a : weight_parameters) (s2 offset : Nat)
    (hc : weight_parameters.construct h0 fill length s = some (a, h))
    (hpow : ∃ e, length = 2 ^ e) (h32 : s2 < 32) (hle : 2 ^ s2 ≤ a._weight_mask + 1)
    (ho : offset < 2 ^ s2) (fuel : Nat) (hf : a.slot_count / 2 ^ s2 < fuel) :
    ∃ bi ei ps h1, (a.set_stride_shift s2).begin_offset offset = some bi ∧
      (a.set_stride_shift s2).end_offset offset = some ei ∧ bi._stride = 2 ^ s2 ∧
      weights_iterator.visit fuel bi ei = some ps ∧
      ps.length = a.slot_count / 2 ^ s2 ∧
      (∀ q, q ∈ ps → ∃ v, h.read q = some v) ∧
      (a.set_stride_shift s2).set_zero fuel h offset = some (a.set_stride_shift s2, h1) ∧
      (a.slot_count = a._weight_mask + 1 ∨
        (a.slot_count = 0 ∧ a._weight_mask = 2 ^ 64 - 1)) := by
  obtain ⟨e, rfl⟩ := hpow
  obtain ⟨n, hn, hb, hbeg, hmask, _, hslot, hcells⟩ := weight_parameters.construct_block hc
  have hcases := weight_parameters.slot_count_cases hc
  obtain ⟨hpos, hdiv, hbound⟩ := buckets_changed hn hb h32 (hmask ▸ hle)
  have hso : stride_of (a.set_stride_shift s2)._stride_shift = some (2 ^ s2) := by
    simp [weight_parameters.set_stride_shift, stride_of, h32]
  obtain ⟨hbi, hei⟩ := weight_parameters.strided_cursors (a.set_stride_shift s2)
    h0.blocks.length n (2 ^ s2) offset hbeg hslot hso (by omega)
  rw [hslot] at hf hcases ⊢
  have hin : ∀ j, j < n / 2 ^ s2 → offset + j * 2 ^ s2 < n := by
    intro j hlt
    have h1 : (j + 1) * 2 ^ s2 ≤ (n / 2 ^ s2) * 2 ^ s2 := Nat.mul_le_mul_right _ hlt
    rw [Nat.succ_mul] at h1
    omega
  have hvis := weights_iterator.visit_spec (some h0.blocks.length) (2 ^ s2) hpos
    ⟨⟨some h0.blocks.length, offset + n⟩, 2 ^ s2⟩ (n / 2 ^ s2) fuel offset hf (by omega)
    (by simp only; rw [← hdiv])
  obtain ⟨h1, ys, hrun, _, _, _, _⟩ :=
    weight_parameters.set_zero_loop_spec h0.blocks.length (2 ^ s2) hpos
      ⟨⟨some h0.blocks.length, offset + n⟩, 2 ^ s2⟩ (n / 2 ^ s2) fuel offset h _ hf hcells
      (by omega) (by intro j hj; simpa using hin j hj) (by simp only; rw [← hdiv])
  refine ⟨_, _, _, h1, hbi, hei, rfl, hvis, by simp, ?_, ?_, hcases⟩
  · intro q hq
    simp only [List.mem_map, List.mem_range] at hq
    obtain ⟨j, hj, rfl⟩ := hq
    rw [Heap.read_block _ hcells]
    exact ⟨_, List.getElem?_eq_getElem (by simpa using hin j hj)⟩
  · unfold weight_parameters.set_zero
    rw [hbi, hei]
    simp only [hrun, Option.map_some']

/-- Witness of C19: `Construct(4, 1)` (8 slots, stride 2), then `stride_shift(2)`
(stride 4) and `set_zero(3)`: two steps, at positions 3 and 7. -/
theorem C19_strided_loop_total_witness :
    (∃ bi ei ps h1,
      ((⟨⟨some 0, 0⟩, 7, 1⟩ : weight_parameters).set_stride_shift 2).begin_offset 3 = some bi ∧
      ((⟨⟨some 0, 0⟩, 7, 1⟩ : weight_parameters).set_stride_shift 2).end_offset 3 = some ei ∧
      bi._stride = 2 ^ 2 ∧
      weights_iterator.visit 3 bi ei = some ps ∧
      ps.length = (⟨⟨some 0, 0⟩, 7, 1⟩ : weight_parameters).slot_count / 2 ^ 2 ∧
      (∀ q, q ∈ ps →
        ∃ v, (⟨[some [10, 20, 30, 40, 50, 60, 70, 80]]⟩ : Heap Int).read q = some v) ∧
      ((⟨⟨some 0, 0⟩, 7, 1⟩ : weight_parameters).set_stride_shift 2).set_zero 3
        (⟨[some [10, 20, 30, 40, 50, 60, 70, 80]]⟩ : Heap Int) 3 =
          some ((⟨⟨some 0, 0⟩, 7, 1⟩ : weight_parameters).set_stride_shift 2, h1) ∧
      ((⟨⟨some 0, 0⟩, 7, 1⟩ : weight_parameters).slot_count = 7 + 1 ∨
        ((⟨⟨some 0, 0⟩, 7, 1⟩ : weight_parameters).slot_count = 0 ∧ 7 = 2 ^ 64 - 1))) ∧
      ((⟨⟨some 0, 0⟩, 7, 1⟩ : weight_parameters).set_stride_shift 2).set_zero 3
        (⟨[some [10, 20, 30, 40, 50, 60, 70, 80]]⟩ : Heap Int) 3 =
          some (⟨⟨some 0, 0⟩, 7, 2⟩, ⟨[some [10, 20, 30, 0, 50, 60, 70, 0]]⟩) :=
  ⟨C19_strided_loop_total ⟨[]⟩ _ (fun k => ((k : Int) + 1) * 10) 4 1 _ 2 3 (by decide)
    ⟨2, by decide⟩ (by decide) (by decide) (by decide) 3 (by decide), by decide⟩

/-- Counterexample to C19 as stated: `Construct(2 ^ 32, 0)` has mask `2 ^ 32 - 1`, so
`s2 = 32` satisfies `2 ^ s2 <= mask + 1`; but the stride expression `1 << 32` on a 32-bit
`int` is undefined, `begin(0)` has no value and `set_zero(0)` no result. -/
theorem C19_counterexample :
    (weight_parameters.construct (⟨[]⟩ : Heap Int) (fun _ => 0) (2 ^ 32) 0).map
        (fun r => r.1) = some ⟨⟨some 0, 0⟩, 2 ^ 32 - 1, 0⟩ ∧
      2 ^ 32 ≤ (⟨⟨some 0, 0⟩, 2 ^ 32 - 1, 0⟩ : weight_parameters)._weight_mask + 1 ∧
      stride_of 32 = none ∧
      ((⟨⟨some 0, 0⟩, 2 ^ 32 - 1, 0⟩ : weight_parameters).set_stride_shift 32).begin_offset 0 =
        none ∧
      (weight_parameters.construct (⟨[]⟩ : Heap Int) (fun _ => 0) (2 ^ 32) 0).bind
        (fun r => (r.1.set_stride_shift 32).set_zero 5 r.2 0) = none := by
  decide

end VW
